import Mathlib

/-!
# Verification of the MTKruto/socks5 SOCKS5 client

A shallow embedding of `src/utils.ts`: the exact-count byte reader `readN`,
the reply-status interpreter `decodeError`, the address codec
(`serializeAddress` / `deserializeAddress`), and the handshake driver
`Client.#connectAndRequest` / `Client.connect`.

Modelling conventions:
* Wire bytes are `Nat`; a `Uint8Array` store coerces every element with
  `% 256` (JS `ToUint8` on the non-negative integers that occur here).
* The transport connection's read side is a script `ByteStream`: the list of
  results that successive `conn.read(buffer)` calls deliver — `some chunk`
  for a read that returns the bytes `chunk`, `none` for a read that signals
  end-of-stream (`null`).  An exhausted script models a read that would
  suspend forever; it surfaces as the artificial error `streamStalled`.
* Thrown JS exceptions become `Except SocksError`; each constructor below
  corresponds to one `throw` site of the source.
-/

namespace Socks5

/-- Script of results delivered by successive `conn.read` calls. -/
abbrev ByteStream := List (Option (List Nat))

instance {ε α : Type} [DecidableEq ε] [DecidableEq α] : DecidableEq (Except ε α) := fun a b =>
  match a, b with
  | .ok x, .ok y =>
    if h : x = y then .isTrue (by rw [h]) else .isFalse (fun he => by cases he; exact h rfl)
  | .error x, .error y =>
    if h : x = y then .isTrue (by rw [h]) else .isFalse (fun he => by cases he; exact h rfl)
  | .ok _, .error _ => .isFalse (fun he => by cases he)
  | .error _, .ok _ => .isFalse (fun he => by cases he)

/-- The exceptions thrown by the source, one constructor per `throw` site,
plus `streamStalled` for a read on an exhausted script (the real code would
suspend forever there; no error object exists for it in the source). -/
inductive SocksError where
  /-- `Deno.errors.UnexpectedEof` from `readN`, carrying `n - nRead`. -/
  | unexpectedEof (remaining : Nat)
  /-- Model artifact: the read script is exhausted (the call would block). -/
  | streamStalled
  /-- `unexpected address type: ${type}` from `deserializeAddress`. -/
  | unexpectedAddrType (t : Nat)
  /-- `unsupported SOCKS version number: ${v}` (negotiation or reply). -/
  | unsupportedVersion (v : Nat)
  /-- `no acceptable authentication methods`. -/
  | noAcceptableAuthMethods
  /-- `unsupported authentication version number: ${v}`. -/
  | unsupportedAuthVersion (v : Nat)
  /-- `authentication failed`. -/
  | authenticationFailed
  /-- the connect reply carried a non-success status; message from `decodeError`. -/
  | requestDenied (msg : String)
deriving DecidableEq, Repr

/-- Loop body of `readN`: `out` (here `acc`) accumulates until `n` bytes are
collected.  Each iteration passes the buffer remainder `out.subarray(nRead)`
(capacity `n - nRead`) to `read`; a delivered chunk is therefore capped at
that capacity, any excess staying buffered at the head of the stream.  Bytes
are stored through the `Uint8Array`, hence the `% 256`.  A `null` read result
throws `UnexpectedEof` carrying `n - nRead`. -/
def readNAux (n : Nat) (s : ByteStream) (acc : List Nat) :
    Except SocksError (List Nat × ByteStream) :=
  if n ≤ acc.length then .ok (acc, s)
  else
    match s with
    | [] => .error .streamStalled
    | none :: _ => .error (.unexpectedEof (n - acc.length))
    | some c :: rest =>
      if c.length ≤ n - acc.length then
        readNAux n rest (acc ++ c.map (· % 256))
      else
        .ok (acc ++ (c.take (n - acc.length)).map (· % 256),
             some (c.drop (n - acc.length)) :: rest)

/-- `readN(reader, n)`: read exactly `n` bytes, tolerating partial reads. -/
def readN (s : ByteStream) (n : Nat) : Except SocksError (List Nat × ByteStream) :=
  readNAux n s []

/-- `SOCKS_VERSION` -/
def SOCKS_VERSION : Nat := 5
/-- `USERNAME_PASSWORD_AUTH_VERSION` -/
def USERNAME_PASSWORD_AUTH_VERSION : Nat := 1

/-- `enum AddrType` -/
def AddrType.IPv4 : Nat := 1
/-- `AddrType.DomainName` -/
def AddrType.DomainName : Nat := 3
/-- `AddrType.IPv6` -/
def AddrType.IPv6 : Nat := 4

/-- `enum AuthMethod` -/
def AuthMethod.NoAuth : Nat := 0
/-- `AuthMethod.UsernamePassword` -/
def AuthMethod.UsernamePassword : Nat := 2
/-- `AuthMethod.NoneAcceptable` -/
def AuthMethod.NoneAcceptable : Nat := 0xff

/-- `Command.Connect` -/
def Command.Connect : Nat := 1

/-- `decodeError(status)`: the switch over `ReplyStatus` (1..8, default). -/
def decodeError (status : Nat) : String :=
  if status = 1 then "general SOCKS server failure"
  else if status = 2 then "connection not allowed by ruleset"
  else if status = 3 then "Network unreachable"
  else if status = 4 then "Host unreachable"
  else if status = 5 then "Connection refused"
  else if status = 6 then "TTL expired"
  else if status = 7 then "Command not supported"
  else if status = 8 then "Address type not supported"
  else "unknown SOCKS error"

/-! ## The address codec -/

/-- The decimal digit character for `n < 10` (used to model JS `String(n)`
and number parsing). -/
def digitChar (n : Nat) : Char := Char.ofNat (48 + n)

/-- Value of a string of decimal digits (most significant first). -/
def decValueChars (g : List Char) : Nat := g.foldl (fun a c => a * 10 + (c.toNat - 48)) 0

/-- Is `c` one of `[0-9a-fA-F]` (the character class of `v6Pattern`, which
carries the `i` flag)? -/
def isHexDigitChar (c : Char) : Bool :=
  c.isDigit || ('a' ≤ c && c ≤ 'f') || ('A' ≤ c && c ≤ 'F')

/-- Value of one hex digit character. -/
def hexDigitVal (c : Char) : Nat :=
  if c.isDigit then c.toNat - 48
  else if 'a' ≤ c then c.toNat - 87
  else c.toNat - 55

/-- `parseInt(x, 16)` on the strings it is applied to in the source: groups
matched by `v6Pattern`, hence pure case-insensitive hex digits. -/
def hexValChars (g : List Char) : Nat := g.foldl (fun a c => a * 16 + hexDigitVal c) 0

/-- Little-endian decimal digits of `n`; fuel-structured so that it computes
by kernel reduction (`fuel ≥ n` suffices since the digit count of `n` is at
most `n` for `n ≥ 1`). -/
def decDigitsAux : Nat → Nat → List Char
  | 0, _ => []
  | fuel + 1, n => if n = 0 then [] else digitChar (n % 10) :: decDigitsAux fuel (n / 10)

/-- JS `String(n)` for a non-negative integer `n`: its decimal digits, no
leading zeros, `"0"` for zero. -/
def natToDecChars (n : Nat) : List Char :=
  if n = 0 then ['0'] else (decDigitsAux n n).reverse

/-- JS `str.split(sep)` for a single-character separator, on the character
list of the string.  `"".split(sep)` is `[""]`; the result is never `[]`. -/
def splitOn (sep : Char) : List Char → List (List Char)
  | [] => [[]]
  | c :: cs =>
    match splitOn sep cs with
    | [] => [[]]
    | g :: gs => if c = sep then [] :: g :: gs else (c :: g) :: gs

/-- `parts.join(sep)` for a single-character separator. -/
def joinSep (sep : Char) : List (List Char) → List Char
  | [] => []
  | [g] => g
  | g :: gs => g ++ sep :: joinSep sep gs

/-- `parts.map(String).join(sep)`: decimal rendering of each part (this is
what `deserializeAddress` does for IPv4 — and for IPv6, where `String`
renders each 16-bit group in decimal). -/
def renderParts (sep : Char) (parts : List Nat) : List Char :=
  joinSep sep (parts.map natToDecChars)

/-- UTF-8 encoding of one Unicode scalar value (`TextEncoder` per character).
Lean `Char`s are exactly the Unicode scalar values, matching the code points
that JS strings hand to `TextEncoder` (surrogate halves cannot round-trip
through extraction of `String.data`, and lone surrogates encode to
replacement bytes in JS; they are outside the fragment exercised here). -/
def utf8EncodeChar (c : Char) : List Nat :=
  let n := c.toNat
  if n < 0x80 then [n]
  else if n < 0x800 then [0xC0 + n / 64, 0x80 + n % 64]
  else if n < 0x10000 then [0xE0 + n / 4096, 0x80 + n / 64 % 64, 0x80 + n % 64]
  else [0xF0 + n / 0x40000, 0x80 + n / 4096 % 64, 0x80 + n / 64 % 64, 0x80 + n % 64]

/-- `new TextEncoder().encode(s)`. -/
def utf8Bytes (s : String) : List Nat := s.data.flatMap utf8EncodeChar

/-- Decoding loop of `new TextDecoder().decode`, modelled on the fragment
that the development exercises: valid UTF-8 is decoded exactly; malformed
sequences (which `TextDecoder` maps to U+FFFD with its own resynchronisation
rules) are mapped to fallback characters without attempting to reproduce the
exact WHATWG replacement positions.  The `fuel` argument only makes the
recursion structural: every decoded character consumes at least one byte, so
`fuel = bytes.length` (as passed by `utf8Decode`) never runs out. -/
def utf8DecodeAux : Nat → List Nat → List Char
  | 0, _ => []
  | fuel + 1, bs =>
    match bs with
    | [] => []
    | b :: bs =>
      if b < 0x80 then Char.ofNat b :: utf8DecodeAux fuel bs
      else if b < 0xC0 then Char.ofNat 0xFFFD :: utf8DecodeAux fuel bs
      else if b < 0xE0 then
        match bs with
        | b1 :: bs2 => Char.ofNat ((b - 0xC0) * 64 + (b1 - 0x80)) :: utf8DecodeAux fuel bs2
        | [] => [Char.ofNat 0xFFFD]
      else if b < 0xF0 then
        match bs with
        | b1 :: b2 :: bs3 =>
          Char.ofNat ((b - 0xE0) * 4096 + (b1 - 0x80) * 64 + (b2 - 0x80)) :: utf8DecodeAux fuel bs3
        | _ => [Char.ofNat 0xFFFD]
      else
        match bs with
        | b1 :: b2 :: b3 :: bs4 =>
          Char.ofNat ((b - 0xF0) * 0x40000 + (b1 - 0x80) * 4096 + (b2 - 0x80) * 64 + (b3 - 0x80))
            :: utf8DecodeAux fuel bs4
        | _ => [Char.ofNat 0xFFFD]

/-- `new TextDecoder().decode(bytes)` (see `utf8DecodeAux`). -/
def utf8Decode (bs : List Nat) : List Char := utf8DecodeAux bs.length bs

/-- String-valued `TextDecoder` decode. -/
def utf8DecodeStr (bs : List Nat) : String := ⟨utf8Decode bs⟩

/-- Length of the leading run of decimal digits. -/
def digitCount : List Char → Nat
  | [] => 0
  | c :: cs => if c.isDigit then digitCount cs + 1 else 0

/-- Length of the leading run of hex digits. -/
def hexCount : List Char → Nat
  | [] => 0
  | c :: cs => if isHexDigitChar c then hexCount cs + 1 else 0

/-- One step of `v4Pattern = /^(?:\d{1,3}\.){3}\d{1,3}/`: match `\d{1,3}\.`.
A greedy `\d{1,3}` followed by a literal dot succeeds (after backtracking)
iff the dot sits immediately after the full leading digit run and that run
has length 1 to 3: a shorter split would put a digit where the dot is
required, and a run of 4 or more digits leaves no dot within reach. -/
def matchGroupDot (cs : List Char) : Option (List Char) :=
  let d := digitCount cs
  if 1 ≤ d ∧ d ≤ 3 then
    match cs.drop d with
    | c :: rest => if c = '.' then some rest else none
    | [] => none
  else none

/-- One step of `v6Pattern`: match `[A-F0-9]{1,4}:` (case-insensitive), by
the same greedy-with-backtracking collapse as `matchGroupDot`. -/
def matchHexColon (cs : List Char) : Option (List Char) :=
  let d := hexCount cs
  if 1 ≤ d ∧ d ≤ 4 then
    match cs.drop d with
    | c :: rest => if c = ':' then some rest else none
    | [] => none
  else none

/-- `(?:[A-F0-9]{1,4}:){k}`. -/
def matchHexGroups : Nat → List Char → Option (List Char)
  | 0, cs => some cs
  | k + 1, cs =>
    match matchHexColon cs with
    | some r => matchHexGroups k r
    | none => none

/-- Final `\d{1,3}` of `v4Pattern` (unanchored at the end, so one leading
digit suffices). -/
def startsWithDigit : List Char → Bool
  | [] => false
  | c :: _ => c.isDigit

/-- Final `[A-F0-9]{1,4}$` of `v6Pattern`: what is left must be 1 to 4 hex
digits, nothing after. -/
def hexGroupEnd (cs : List Char) : Bool :=
  decide (1 ≤ cs.length) && decide (cs.length ≤ 4) && cs.all isHexDigitChar

/-- `v4Pattern.test(hostname)` with
`v4Pattern = /^(?:\d{1,3}\.){3}\d{1,3}/` — note: anchored only at the start. -/
def v4Test (s : String) : Bool :=
  match matchGroupDot s.data with
  | none => false
  | some r1 =>
    match matchGroupDot r1 with
    | none => false
    | some r2 =>
      match matchGroupDot r2 with
      | none => false
      | some r3 => startsWithDigit r3

/-- `v6Pattern.test(hostname)` with
`v6Pattern = /^(?:[A-F0-9]{1,4}:){7}[A-F0-9]{1,4}$/i` — a full match. -/
def v6Test (s : String) : Bool :=
  match matchHexGroups 7 s.data with
  | none => false
  | some r => hexGroupEnd r

/-- JS whitespace (`StrWhiteSpaceChar`: WhiteSpace plus line terminators,
the set trimmed by `Number()` before parsing). -/
def jsWhitespace (c : Char) : Bool :=
  let n := c.toNat
  n = 0x9 || n = 0xA || n = 0xB || n = 0xC || n = 0xD || n = 0x20 || n = 0xA0 ||
  n = 0x1680 || (0x2000 ≤ n && n ≤ 0x200A) || n = 0x2028 || n = 0x2029 ||
  n = 0x202F || n = 0x205F || n = 0x3000 || n = 0xFEFF

/-- Strip leading and trailing JS whitespace. -/
def trimWs (g : List Char) : List Char :=
  ((g.dropWhile jsWhitespace).reverse.dropWhile jsWhitespace).reverse

/-- Drop one optional leading sign. -/
def signedPart (t : List Char) : List Char :=
  match t with
  | c :: rest => if c = '+' || c = '-' then rest else t
  | [] => []

/-- `DecimalDigits ExponentPart?` (no decimal point: the strings tested here
are dot-split groups, so a point cannot occur). -/
def decExpForm (t : List Char) : Bool :=
  let d := t.takeWhile Char.isDigit
  let r := t.dropWhile Char.isDigit
  !d.isEmpty &&
    (r.isEmpty ||
      (match r with
       | c :: r2 =>
         (c = 'e' || c = 'E') &&
           (let r3 := signedPart r2
            !r3.isEmpty && r3.all Char.isDigit)
       | [] => false))

/-- `NonDecimalIntegerLiteral`: `0x`/`0o`/`0b` forms (no sign allowed). -/
def radixForm (t : List Char) : Bool :=
  match t with
  | '0' :: c :: rest =>
    ((c = 'x' || c = 'X') && !rest.isEmpty && rest.all isHexDigitChar) ||
    ((c = 'o' || c = 'O') && !rest.isEmpty && rest.all (fun d => '0' ≤ d && d ≤ '7')) ||
    ((c = 'b' || c = 'B') && !rest.isEmpty && rest.all (fun d => d = '0' || d = '1'))
  | _ => false

/-- The JS `StringNumericLiteral` grammar restricted to strings without a
decimal point (all strings tested here are dot-split groups): exactly the
dot-free strings `g` with `Number(g)` not NaN — whitespace-trimmed empty,
an optionally signed `DecimalDigits ExponentPart?` or `Infinity`, or an
unsigned radix literal.  Its negation is therefore a sound (and exact)
NaN test, delimiting where `jsNumberByte`'s NaN-to-0 modelling is exact. -/
def possiblyNumericGroup (g : List Char) : Bool :=
  let t := trimWs g
  t.isEmpty ||
  (let u := signedPart t
   decExpForm u || u == "Infinity".data) ||
  radixForm t

/-- `Number(g)` followed by the `Uint8Array` element coercion's treatment of
NaN: on strings of pure ASCII digits (including `""`, which JS maps to 0)
`Number` yields their decimal value, and on the other strings that occur in
addresses it yields NaN, which `ToUint8` maps to 0.  The model covers digit
strings short enough (≤ 15 digits) to be exact in double precision; the
theorems only apply it under that restriction.  (Exotic inputs that JS
`Number` also accepts — whitespace padding, `0x…`, exponents, fractions —
are outside the modelled fragment.) -/
def jsNumberByte (g : List Char) : Nat :=
  if g.all Char.isDigit then decValueChars g else 0

/-- `Uint8Array.from(l)`: every element is coerced with `ToUint8`, i.e.
`% 256` for the non-negative integers that occur here. -/
def toUint8Array (l : List Nat) : List Nat := l.map (· % 256)

/-- `serializeAddress(hostname, port)`.  `port >> 8` is `port / 256` for the
ports (< 2³¹) that can occur. -/
def serializeAddress (hostname : String) (port : Nat) : List Nat :=
  let portBytes := [port / 256, port % 256]
  if v4Test hostname then
    toUint8Array (AddrType.IPv4 :: (splitOn '.' hostname.data).map jsNumberByte ++ portBytes)
  else if v6Test hostname then
    toUint8Array (AddrType.IPv6 ::
      (splitOn ':' hostname.data).flatMap (fun x =>
        let num := hexValChars x
        [num / 256, num % 256]) ++ portBytes)
  else
    let bytes := utf8Bytes hostname
    toUint8Array (AddrType.DomainName :: bytes.length :: bytes ++ portBytes)

/-- The IPv6 loop of `deserializeAddress`: successive pairs of bytes to
big-endian 16-bit values (`(buff[i] << 8) + buff[i+1]`). -/
def pairBE : List Nat → List Nat
  | a :: b :: rest => (a * 256 + b) :: pairBE rest
  | _ => []

/-- The record returned by `deserializeAddress`. -/
structure DeserializedAddr where
  hostname : String
  port : Nat
  bytesRead : Nat
deriving DecidableEq, Repr

/-- `deserializeAddress(r)`. -/
def deserializeAddress (s : ByteStream) : Except SocksError (DeserializedAddr × ByteStream) :=
  match readN s 1 with
  | .error e => .error e
  | .ok (tb, s) =>
    let type := tb.getD 0 0
    let hostRes : Except SocksError ((List Char × Nat) × ByteStream) :=
      if type = AddrType.IPv4 then
        match readN s 4 with
        | .error e => .error e
        | .ok (parts, s) => .ok ((renderParts '.' parts, 4), s)
      else if type = AddrType.IPv6 then
        match readN s 16 with
        | .error e => .error e
        | .ok (buff, s) => .ok ((renderParts ':' (pairBE buff), 16), s)
      else if type = AddrType.DomainName then
        match readN s 1 with
        | .error e => .error e
        | .ok (lb, s) =>
          let len := lb.getD 0 0
          match readN s len with
          | .error e => .error e
          | .ok (nb, s) => .ok (((utf8Decode nb : List Char), len + 1), s)
      else .error (.unexpectedAddrType type)
    match hostRes with
    | .error e => .error e
    | .ok ((value, len), s) =>
      match readN s 2 with
      | .error e => .error e
      | .ok (pb, s) =>
        let port := (pb.getD 0 0) * 256 + pb.getD 1 0
        .ok (⟨⟨value⟩, port, len + 3⟩, s)

/-- `deserializeAddress` run on a fully-buffered byte sequence (a stream
whose reads all come from one delivered chunk), keeping only the record. -/
def deserializeAddressBytes (bs : List Nat) : Except SocksError DeserializedAddr :=
  (deserializeAddress [some bs]).map (·.1)

/-! ## The client and the handshake -/

/-- `ReplyStatus.Success` -/
def ReplyStatus.Success : Nat := 0

/-- `ClientConfig`: the proxy address (`AddrConfig`, with optional port),
optionally intersected with `AuthConfig` credentials; `"username" in config`
becomes `creds.isSome`. -/
structure ClientConfig where
  hostname : String
  port : Option Nat
  creds : Option (String × String)
deriving DecidableEq

/-- The `Client` constructor's `port: config.port ?? 1080`. -/
def resolvePort (cfg : ClientConfig) : Nat := cfg.port.getD 1080

/-- Observable state of the proxy transport connection threaded through the
handshake: the pending read script, the bytes written so far, and how many
times `conn.close()` has been attempted. -/
structure HS where
  stream : ByteStream
  written : List Nat
  closed : Nat
deriving DecidableEq

/-- `writeAll(conn, Uint8Array.from(bs))`: the bytes go through a
`Uint8Array`, hence the coercion. -/
def hsWrite (bs : List Nat) (st : HS) : HS :=
  { st with written := st.written ++ bs.map (· % 256) }

/-- The result of a `conn.close()` call, which may throw (for instance on an
already-closed resource); the flag selects which behaviour is modelled. -/
def closeAttempt (closeThrows : Bool) : Except Unit Unit :=
  if closeThrows then .error () else .ok ()

/-- `try { conn.close() } catch { /* ignore */ }`: the attempt is recorded
either way, and a throwing close changes nothing else — the catch swallows
the error. -/
def hsClose (closeThrows : Bool) (st : HS) : HS :=
  let st' := { st with closed := st.closed + 1 }
  match closeAttempt closeThrows with
  | .ok _ => st'
  | .error _ => st'

/-- The errors the handshake raises itself after validating a reply, at a
`throw` site preceded by `try { conn.close() } catch {}` — as opposed to the
errors thrown from inside `readN` or `deserializeAddress`. -/
def SocksError.isChecked : SocksError → Bool
  | .unsupportedVersion _ => true
  | .noAcceptableAuthMethods => true
  | .unsupportedAuthVersion _ => true
  | .authenticationFailed => true
  | .requestDenied _ => true
  | _ => false

/-- The username/password sub-negotiation of `Client.#connectAndRequest`
(its `if (method === AuthMethod.UsernamePassword)` block).  When the server
selects username/password but no credentials are configured, the source
reads `cfg.username` / `cfg.password` as `undefined`, which `TextEncoder`
encodes like the empty string — modelled by `creds.getD ("", "")` at the
call site. -/
def handshakeAuth (closeThrows : Bool) (creds : String × String) (st : HS) :
    Except SocksError Unit × HS :=
  let username := utf8Bytes creds.1
  let password := utf8Bytes creds.2
  let st := hsWrite ([USERNAME_PASSWORD_AUTH_VERSION, username.length] ++ username
    ++ [password.length] ++ password) st
  match readN st.stream 2 with
  | .error e => (.error e, st)
  | .ok (reply, s1) =>
    let st := { st with stream := s1 }
    let authVersion := reply.getD 0 0
    let status := reply.getD 1 0
    if authVersion ≠ USERNAME_PASSWORD_AUTH_VERSION ∨ status ≠ ReplyStatus.Success then
      let st := hsClose closeThrows st
      (.error (if authVersion ≠ USERNAME_PASSWORD_AUTH_VERSION
               then .unsupportedAuthVersion authVersion
               else .authenticationFailed), st)
    else (.ok (), st)

/-- The connect request, reply check, and bound-address decoding (the
`// handle actual message` tail of `Client.#connectAndRequest`). -/
def handshakeRequest (closeThrows : Bool) (cmd : Nat) (hostname : String) (port : Nat)
    (st : HS) : Except SocksError DeserializedAddr × HS :=
  let st := hsWrite ([SOCKS_VERSION, cmd, 0] ++ serializeAddress hostname port) st
  match readN st.stream 3 with
  | .error e => (.error e, st)
  | .ok (reply, s1) =>
    let st := { st with stream := s1 }
    let replyVersion := reply.getD 0 0
    let status := reply.getD 1 0
    if replyVersion ≠ SOCKS_VERSION ∨ status ≠ ReplyStatus.Success then
      let st := hsClose closeThrows st
      (.error (if replyVersion ≠ SOCKS_VERSION then .unsupportedVersion replyVersion
               else .requestDenied (decodeError status)), st)
    else
      match deserializeAddress st.stream with
      | .error e => (.error e, st)
      | .ok (addr, s2) => (.ok addr, { st with stream := s2 })

/-- `Client.#connectAndRequest(cmd, hostname, port)`: method negotiation,
the optional authentication sub-exchange, then the request (opening the
transport connection to the proxy is the external collaborator that hands
us `proxyStream`).  Returns the deserialized bound address and the final
connection state. -/
def connectAndRequest (closeThrows : Bool) (cfg : ClientConfig) (cmd : Nat)
    (hostname : String) (port : Nat) (proxyStream : ByteStream) :
    Except SocksError DeserializedAddr × HS :=
  let st : HS := ⟨proxyStream, [], 0⟩
  let methods := AuthMethod.NoAuth ::
    (if cfg.creds.isSome then [AuthMethod.UsernamePassword] else [])
  let st := hsWrite (SOCKS_VERSION :: methods.length :: methods) st
  match readN st.stream 2 with
  | .error e => (.error e, st)
  | .ok (reply, s1) =>
    let st := { st with stream := s1 }
    let negotiationVersion := reply.getD 0 0
    let method := reply.getD 1 0
    if negotiationVersion ≠ SOCKS_VERSION ∨ method = AuthMethod.NoneAcceptable then
      let st := hsClose closeThrows st
      (.error (if negotiationVersion ≠ SOCKS_VERSION
               then .unsupportedVersion negotiationVersion
               else .noAcceptableAuthMethods), st)
    else
      if method = AuthMethod.UsernamePassword then
        match handshakeAuth closeThrows (cfg.creds.getD ("", "")) st with
        | (.error e, st) => (.error e, st)
        | (.ok _, st) => handshakeRequest closeThrows cmd hostname port st
      else handshakeRequest closeThrows cmd hostname port st

/-- `Deno.ConnectOptions` as consumed by `Client.connect`. -/
structure ConnectOptions where
  hostname : Option String
  port : Nat
deriving DecidableEq

/-- The address-observable part of the `Deno.TcpConn`-like object returned
by `Client.connect` (read/write/close/closeWrite and the keep-alive and
no-delay setters are plain delegations to the underlying transport). -/
structure TcpConnModel where
  localAddr : String × Nat
  remoteAddr : String × Nat
deriving DecidableEq

/-- `Client.connect(opts)`. -/
def Client.connect (closeThrows : Bool) (cfg : ClientConfig) (opts : ConnectOptions)
    (proxyStream : ByteStream) : Except SocksError TcpConnModel × HS :=
  let remoteHostname := opts.hostname.getD "127.0.0.1"
  let (r, st) := connectAndRequest closeThrows cfg Command.Connect remoteHostname opts.port
    proxyStream
  (r.map fun d =>
    { localAddr := (d.hostname, d.port), remoteAddr := (remoteHostname, opts.port) },
   st)

/-- How many close attempts accompany a given handshake outcome. -/
def closedDelta {α : Type} : Except SocksError α → Nat
  | .error e => if e.isChecked then 1 else 0
  | .ok _ => 0

/-- A read script for a full successful handshake without authentication:
the method-negotiation reply `[5, 0]`, then the request reply `[5, 0, 0]`
followed by the bound address `127.0.0.1:80`. -/
def okScript10 : ByteStream := [some [5, 0], some ([5, 0, 0] ++ [1, 127, 0, 0, 1, 0, 80])]

/-! ## Basic facts about `readN` -/

/-- Sum of the lengths of the scripted chunks. -/
def chunksLen (chunks : List (List Nat)) : Nat := (chunks.map List.length).sum

theorem readNAux_ok_length {n : Nat} : ∀ (s : ByteStream) (acc : List Nat),
    acc.length ≤ n → ∀ {r : List Nat} {s' : ByteStream},
    readNAux n s acc = .ok (r, s') → r.length = n := by
  intro s
  induction s with
  | nil =>
    intro acc hacc r s' h
    rw [readNAux.eq_def] at h
    split at h
    · cases h; omega
    · exact absurd h (by simp)
  | cons o rest ih =>
    intro acc hacc r s' h
    rw [readNAux.eq_def] at h
    split at h
    · cases h; omega
    · rename_i hlt
      match o with
      | none => exact absurd h (by simp)
      | some c =>
        simp only at h
        split at h
        · rename_i hc
          exact ih _ (by simp; omega) h
        · rename_i hc
          cases h
          simp
          omega

theorem readNAux_eof {n : Nat} :
    ∀ (chunks : List (List Nat)) (rest : ByteStream) (acc : List Nat),
    acc.length + chunksLen chunks < n →
    readNAux n (chunks.map some ++ none :: rest) acc =
      .error (.unexpectedEof (n - (acc.length + chunksLen chunks))) := by
  intro chunks
  induction chunks with
  | nil =>
    intro rest acc h
    rw [readNAux.eq_def]
    simp only [chunksLen, List.map_nil, List.sum_nil, List.nil_append] at *
    rw [if_neg (by omega)]
    simp
  | cons c cs ih =>
    intro rest acc h
    have hcs : chunksLen (c :: cs) = c.length + chunksLen cs := by
      simp [chunksLen]
    rw [readNAux.eq_def]
    rw [if_neg (by omega)]
    simp only [List.map_cons, List.cons_append]
    rw [if_pos (by omega)]
    rw [ih rest _ (by simp; omega)]
    congr 2
    simp
    omega

theorem readN_zero (s : ByteStream) : readN s 0 = .ok ([], s) := by
  rw [readN, readNAux.eq_def]
  simp

theorem readN_chunk_exact {n : Nat} (c : List Nat) (s : ByteStream) (hn : 0 < n)
    (h : c.length = n) :
    readN (some c :: s) n = .ok (c.map (· % 256), s) := by
  rw [readN, readNAux.eq_def]
  rw [if_neg (by simp only [List.length_nil]; omega)]
  simp only
  rw [if_pos (by simp only [List.length_nil]; omega), readNAux.eq_def]
  rw [if_pos (by simp [h])]
  simp

theorem readN_chunk_more {n : Nat} (c : List Nat) (s : ByteStream) (h : n < c.length) :
    readN (some c :: s) n = .ok ((c.take n).map (· % 256), some (c.drop n) :: s) := by
  by_cases hn : n = 0
  · subst hn
    rw [readN, readNAux.eq_def]
    simp
  · rw [readN, readNAux.eq_def]
    rw [if_neg (by simp only [List.length_nil]; omega)]
    simp only
    rw [if_neg (by simp only [List.length_nil]; omega)]
    simp

/-- C5 (`readN`): part 1 — a successful `readN` returns exactly `n` bytes;
part 2 — if the stream signals end-of-stream after delivering `k < n` bytes
(over any number of partial reads), `readN` fails with the
unexpected-end-of-stream error carrying `n - k`. -/
theorem readN_spec :
    (∀ (s : ByteStream) (n : Nat) (r : List Nat) (s' : ByteStream),
        readN s n = .ok (r, s') → r.length = n) ∧
    (∀ (chunks : List (List Nat)) (rest : ByteStream) (n : Nat),
        chunksLen chunks < n →
        readN (chunks.map some ++ none :: rest) n =
          .error (.unexpectedEof (n - chunksLen chunks))) := by
  constructor
  · intro s n r s' h
    exact readNAux_ok_length s [] (by simp) h
  · intro chunks rest n h
    rw [readN, readNAux_eof chunks rest [] (by simpa using h)]
    simp

/-- Witness for `readN_spec`: a two-byte read that gets `[5, 6]` in two
partial reads returns a two-byte result, and a two-byte read that gets `[5]`
and then end-of-stream fails expecting 1 more byte. -/
theorem readN_spec_witness :
    (readN [some [5], some [6], none] 2 = .ok ([5, 6], [none]) ∧ ([5, 6] : List Nat).length = 2) ∧
    readN [some [5], none] 2 = .error (.unexpectedEof 1) := by
  refine ⟨⟨by decide, readN_spec.1 [some [5], some [6], none] 2 [5, 6] [none] (by decide)⟩, ?_⟩
  exact readN_spec.2 [[5]] [] 2 (by decide)

/-! ## C6: the reply-status interpreter -/

/-- C6 (`decodeError`): the exact mapping of reply-status codes to messages —
1 through 8 to their respective descriptions (5 to "Connection refused",
8 to "Address type not supported"), every other value to
"unknown SOCKS error". -/
theorem decodeError_spec :
    decodeError 1 = "general SOCKS server failure" ∧
    decodeError 2 = "connection not allowed by ruleset" ∧
    decodeError 3 = "Network unreachable" ∧
    decodeError 4 = "Host unreachable" ∧
    decodeError 5 = "Connection refused" ∧
    decodeError 6 = "TTL expired" ∧
    decodeError 7 = "Command not supported" ∧
    decodeError 8 = "Address type not supported" ∧
    (∀ n : Nat, n ∉ ([1, 2, 3, 4, 5, 6, 7, 8] : List Nat) →
      decodeError n = "unknown SOCKS error") := by
  refine ⟨rfl, rfl, rfl, rfl, rfl, rfl, rfl, rfl, ?_⟩
  intro n hn
  simp only [List.mem_cons, List.not_mem_nil, or_false] at hn
  push_neg at hn
  obtain ⟨h1, h2, h3, h4, h5, h6, h7, h8⟩ := hn
  simp [decodeError, h1, h2, h3, h4, h5, h6, h7, h8]

/-- Witness for `decodeError_spec`: status 0 (and so any value outside 1..8)
maps to the unknown-error message. -/
theorem decodeError_spec_witness :
    decodeError 0 = "unknown SOCKS error" ∧ decodeError 9 = "unknown SOCKS error" :=
  ⟨decodeError_spec.2.2.2.2.2.2.2.2 0 (by decide),
   decodeError_spec.2.2.2.2.2.2.2.2 9 (by decide)⟩

/-! ## Shapes of `deserializeAddress` on fully-buffered wire addresses -/

theorem deserializeAddressBytes_ipv4 (a b c d p1 p2 : Nat) (rest : List Nat) :
    deserializeAddressBytes (AddrType.IPv4 :: a :: b :: c :: d :: p1 :: p2 :: rest) =
      .ok ⟨⟨renderParts '.' [a % 256, b % 256, c % 256, d % 256]⟩,
           p1 % 256 * 256 + p2 % 256, 7⟩ := by
  cases rest <;>
    simp [deserializeAddressBytes, deserializeAddress, readN_chunk_more, readN_chunk_exact,
          Except.map, AddrType.IPv4, AddrType.IPv6, AddrType.DomainName]

theorem deserializeAddressBytes_ipv6
    (b0 b1 b2 b3 b4 b5 b6 b7 b8 b9 b10 b11 b12 b13 b14 b15 p1 p2 : Nat) (rest : List Nat) :
    deserializeAddressBytes (AddrType.IPv6 :: b0 :: b1 :: b2 :: b3 :: b4 :: b5 :: b6 :: b7 ::
        b8 :: b9 :: b10 :: b11 :: b12 :: b13 :: b14 :: b15 :: p1 :: p2 :: rest) =
      .ok ⟨⟨renderParts ':' (pairBE [b0 % 256, b1 % 256, b2 % 256, b3 % 256, b4 % 256,
              b5 % 256, b6 % 256, b7 % 256, b8 % 256, b9 % 256, b10 % 256, b11 % 256,
              b12 % 256, b13 % 256, b14 % 256, b15 % 256])⟩,
           p1 % 256 * 256 + p2 % 256, 19⟩ := by
  cases rest <;>
    simp [deserializeAddressBytes, deserializeAddress, readN_chunk_more, readN_chunk_exact,
          Except.map, AddrType.IPv4, AddrType.IPv6, AddrType.DomainName]

theorem deserializeAddressBytes_badtype (t : Nat) (ht : t < 256)
    (h1 : t ≠ 1) (h3 : t ≠ 3) (h4 : t ≠ 4) (rest : List Nat) :
    deserializeAddressBytes (t :: rest) = .error (.unexpectedAddrType t) := by
  cases rest <;>
    simp [deserializeAddressBytes, deserializeAddress, readN_chunk_more, readN_chunk_exact,
          Except.map, AddrType.IPv4, AddrType.IPv6, AddrType.DomainName,
          Nat.mod_eq_of_lt ht, h1, h3, h4]

theorem deserializeAddressBytes_domain (L : Nat) (hL : L < 256) (payload : List Nat)
    (hp : payload.length = L) (p1 p2 : Nat) (rest : List Nat) :
    deserializeAddressBytes (AddrType.DomainName :: L :: payload ++ p1 :: p2 :: rest) =
      .ok ⟨utf8DecodeStr (payload.map (· % 256)), p1 % 256 * 256 + p2 % 256, L + 4⟩ := by
  have h1 : readN [some (AddrType.DomainName :: L :: payload ++ p1 :: p2 :: rest)] 1 =
      .ok ([3], [some (L :: payload ++ p1 :: p2 :: rest)]) := by
    rw [readN_chunk_more _ _ (by simp)]
    simp [AddrType.DomainName]
  have h2 : readN [some (L :: payload ++ p1 :: p2 :: rest)] 1 =
      .ok ([L], [some (payload ++ p1 :: p2 :: rest)]) := by
    rw [readN_chunk_more _ _ (by simp)]
    simp [Nat.mod_eq_of_lt hL]
  have h3 : readN [some (payload ++ p1 :: p2 :: rest)] L =
      .ok (payload.map (· % 256), [some (p1 :: p2 :: rest)]) := by
    rcases Nat.eq_zero_or_pos L with h0 | h0
    · have hpl : payload = [] := List.length_eq_zero.mp (by omega)
      subst hpl
      simp [h0, readN_zero]
    · rw [readN_chunk_more _ _ (by simp; omega)]
      rw [List.take_left' hp, List.drop_left' hp]
  cases rest <;>
    simp [deserializeAddressBytes, deserializeAddress, h1, h2, h3, readN_chunk_exact,
          readN_chunk_more, Except.map, utf8DecodeStr, hp, Nat.mod_eq_of_lt hL,
          AddrType.DomainName, AddrType.IPv4, AddrType.IPv6]

/-! ## C9: bytes consumed, and the unknown-address-type failure -/

/-- C9 (`deserializeAddress`): the consumed-byte count is the address payload
size plus 3 (type byte + 2 port bytes): 7 for IPv4, 19 for IPv6, `L + 4` for
a domain name with length byte `L`; and any type byte outside `{1, 3, 4}`
fails with the unexpected-address-type error carrying that byte. -/
theorem deserializeAddress_consumed_spec :
    (∀ (a b c d p1 p2 : Nat) (rest : List Nat),
        deserializeAddressBytes (AddrType.IPv4 :: a :: b :: c :: d :: p1 :: p2 :: rest) =
          .ok ⟨⟨renderParts '.' [a % 256, b % 256, c % 256, d % 256]⟩,
               p1 % 256 * 256 + p2 % 256, 4 + 3⟩) ∧
    (∀ (b0 b1 b2 b3 b4 b5 b6 b7 b8 b9 b10 b11 b12 b13 b14 b15 p1 p2 : Nat) (rest : List Nat),
        deserializeAddressBytes (AddrType.IPv6 :: b0 :: b1 :: b2 :: b3 :: b4 :: b5 :: b6 ::
            b7 :: b8 :: b9 :: b10 :: b11 :: b12 :: b13 :: b14 :: b15 :: p1 :: p2 :: rest) =
          .ok ⟨⟨renderParts ':' (pairBE [b0 % 256, b1 % 256, b2 % 256, b3 % 256, b4 % 256,
                  b5 % 256, b6 % 256, b7 % 256, b8 % 256, b9 % 256, b10 % 256, b11 % 256,
                  b12 % 256, b13 % 256, b14 % 256, b15 % 256])⟩,
               p1 % 256 * 256 + p2 % 256, 16 + 3⟩) ∧
    (∀ (L : Nat), L < 256 → ∀ (payload : List Nat), payload.length = L →
        ∀ (p1 p2 : Nat) (rest : List Nat),
        deserializeAddressBytes (AddrType.DomainName :: L :: payload ++ p1 :: p2 :: rest) =
          .ok ⟨utf8DecodeStr (payload.map (· % 256)), p1 % 256 * 256 + p2 % 256, (L + 1) + 3⟩) ∧
    (∀ (t : Nat), t < 256 →
        t ∉ ([AddrType.IPv4, AddrType.DomainName, AddrType.IPv6] : List Nat) →
        ∀ (rest : List Nat),
        deserializeAddressBytes (t :: rest) = .error (.unexpectedAddrType t)) := by
  refine ⟨deserializeAddressBytes_ipv4, deserializeAddressBytes_ipv6, ?_, ?_⟩
  · intro L hL payload hp p1 p2 rest
    simpa using deserializeAddressBytes_domain L hL payload hp p1 p2 rest
  · intro t ht hmem rest
    simp only [List.mem_cons, List.not_mem_nil, or_false, not_or,
               AddrType.IPv4, AddrType.DomainName, AddrType.IPv6] at hmem
    exact deserializeAddressBytes_badtype t ht hmem.1 hmem.2.1 hmem.2.2 rest

/-- Witness for `deserializeAddress_consumed_spec`: the four cases at
concrete wire addresses — consumed counts 7, 19 and 9 + 4, and the failure
on type byte 9. -/
theorem deserializeAddress_consumed_spec_witness :
    deserializeAddressBytes [1, 127, 0, 0, 1, 31, 144] = .ok ⟨"127.0.0.1", 8080, 7⟩ ∧
    deserializeAddressBytes
        [4, 0, 1, 0, 2, 0, 3, 0, 4, 0, 5, 0, 6, 0, 7, 0, 8, 0, 80] =
      .ok ⟨"1:2:3:4:5:6:7:8", 80, 19⟩ ∧
    deserializeAddressBytes
        ([3, 11] ++ [101, 120, 97, 109, 112, 108, 101, 46, 111, 114, 103] ++ [1, 187]) =
      .ok ⟨"example.org", 443, 15⟩ ∧
    deserializeAddressBytes [9, 0, 0] = .error (.unexpectedAddrType 9) := by
  refine ⟨?_, ?_, ?_, ?_⟩
  · have h := deserializeAddress_consumed_spec.1 127 0 0 1 31 144 []
    simpa using h
  · have h := deserializeAddress_consumed_spec.2.1 0 1 0 2 0 3 0 4 0 5 0 6 0 7 0 8 0 80 []
    simpa using h
  · have h := deserializeAddress_consumed_spec.2.2.1 11 (by decide)
      [101, 120, 97, 109, 112, 108, 101, 46, 111, 114, 103] (by decide) 1 187 []
    simpa using h
  · have h := deserializeAddress_consumed_spec.2.2.2 9 (by decide) (by decide) [0, 0]
    simpa using h

/-! ## C4: IPv6 decoding (code bug: decimal rendering) -/

/-- C4 (`deserializeAddress`, IPv6): the 16 payload bytes are grouped into 8
big-endian 16-bit values and joined with `:`, with zero runs uncompressed,
and 16 + 3 bytes are consumed — but `parts.map(String)` renders each group
in DECIMAL, not hexadecimal as the claim states: the payload
`00 0a 00 00 ... 00 01` decodes to `"10:0:0:0:0:0:0:1"` where the
hexadecimal rendering would be `"a:0:0:0:0:0:0:1"`. -/
theorem ipv6_decode_renders_decimal :
    deserializeAddressBytes
        (AddrType.IPv6 :: [0, 10, 0, 0, 0, 0, 0, 0, 0, 0, 0, 0, 0, 0, 0, 1] ++ [0, 80]) =
      .ok ⟨"10:0:0:0:0:0:0:1", 80, 19⟩ ∧
    ("10:0:0:0:0:0:0:1" : String) ≠ "a:0:0:0:0:0:0:1" := by
  exact ⟨by decide, by decide⟩

/-! ## C2: over-long domain names (code bug: silent length wrap-around) -/

set_option maxRecDepth 40000 in
/-- C2 (`serializeAddress`, domain names): a 256-byte domain name is NOT
rejected: `bytes.length` is coerced by the `Uint8Array` to `256 % 256 = 0`,
so the encoder silently emits a malformed address whose length byte is 0
(decoding it back yields hostname `""` and a port made of two name bytes),
instead of failing as the claim requires. -/
theorem serializeAddress_long_domain_wraps :
    serializeAddress (String.mk (List.replicate 256 'a')) 80 =
      AddrType.DomainName :: 0 :: (List.replicate 256 97 ++ [0, 80]) ∧
    (utf8Bytes (String.mk (List.replicate 256 'a'))).length = 256 ∧
    deserializeAddressBytes (serializeAddress (String.mk (List.replicate 256 'a')) 80) =
      .ok ⟨"", 24929, 4⟩ := by
  exact ⟨by decide, by decide, by decide⟩



/-! ## Decimal rendering: `String(n)` facts -/

theorem digitChar_isDigit {m : Nat} (h : m < 10) : (digitChar m).isDigit = true := by
  interval_cases m <;> decide

theorem digitChar_toNat {m : Nat} (h : m < 10) : (digitChar m).toNat = 48 + m := by
  interval_cases m <;> decide

theorem decDigitsAux_all_digit :
    ∀ (fuel n : Nat), ∀ c ∈ decDigitsAux fuel n, c.isDigit = true := by
  intro fuel
  induction fuel with
  | zero => intro n c hc; simp [decDigitsAux] at hc
  | succ f ih =>
    intro n c hc
    by_cases h0 : n = 0
    · simp [decDigitsAux, h0] at hc
    · simp only [decDigitsAux, h0, if_false, List.mem_cons] at hc
      rcases hc with h | h
      · subst h; exact digitChar_isDigit (Nat.mod_lt _ (by decide))
      · exact ih _ _ h

theorem decValueChars_append (l : List Char) (c : Char) :
    decValueChars (l ++ [c]) = decValueChars l * 10 + (c.toNat - 48) := by
  simp [decValueChars, List.foldl_append]

theorem decValueChars_decDigits :
    ∀ (fuel n : Nat), n ≤ fuel → decValueChars (decDigitsAux fuel n).reverse = n := by
  intro fuel
  induction fuel with
  | zero =>
    intro n h
    interval_cases n
    simp [decDigitsAux, decValueChars]
  | succ f ih =>
    intro n h
    by_cases h0 : n = 0
    · subst h0; simp [decDigitsAux, decValueChars]
    · rw [decDigitsAux, if_neg h0, List.reverse_cons, decValueChars_append]
      rw [ih (n / 10) (by omega)]
      rw [digitChar_toNat (Nat.mod_lt _ (by decide))]
      omega

theorem decDigitsAux_length :
    ∀ (fuel n k : Nat), n < 10 ^ k → (decDigitsAux fuel n).length ≤ k := by
  intro fuel
  induction fuel with
  | zero => intro n k _; simp [decDigitsAux]
  | succ f ih =>
    intro n k hk
    by_cases h0 : n = 0
    · simp [decDigitsAux, h0]
    · rw [decDigitsAux, if_neg h0]
      cases k with
      | zero => simp at hk; omega
      | succ k' =>
        have : n / 10 < 10 ^ k' := by
          have : (10 : Nat) ^ (k' + 1) = 10 ^ k' * 10 := by ring
          exact Nat.div_lt_of_lt_mul (by omega)
        simpa using ih (n / 10) k' this

theorem natToDecChars_all_digit (n : Nat) : ∀ c ∈ natToDecChars n, c.isDigit = true := by
  rw [natToDecChars]
  split
  · intro c hc; simp at hc; subst hc; decide
  · intro c hc; exact decDigitsAux_all_digit n n c (List.mem_reverse.mp hc)

theorem decValueChars_natToDecChars (n : Nat) : decValueChars (natToDecChars n) = n := by
  rw [natToDecChars]
  split
  · rename_i h; subst h; decide
  · exact decValueChars_decDigits n n le_rfl

theorem natToDecChars_ne_nil (n : Nat) : natToDecChars n ≠ [] := by
  rw [natToDecChars]
  split
  · simp
  · rename_i h0
    cases n with
    | zero => exact absurd rfl h0
    | succ m =>
      rw [decDigitsAux, if_neg h0]
      simp

theorem natToDecChars_length_le {n k : Nat} (h : n < 10 ^ k) (hk : 1 ≤ k) :
    (natToDecChars n).length ≤ k := by
  rw [natToDecChars]
  split
  · simpa using hk
  · simpa using decDigitsAux_length n n k h

theorem jsNumberByte_natToDecChars (n : Nat) : jsNumberByte (natToDecChars n) = n := by
  rw [jsNumberByte, if_pos (List.all_eq_true.mpr (natToDecChars_all_digit n))]
  exact decValueChars_natToDecChars n



/-! ## `split` / `join` -/

theorem splitOn_ne_nil (sep : Char) : ∀ cs, splitOn sep cs ≠ [] := by
  intro cs
  induction cs with
  | nil => simp [splitOn]
  | cons c cs ih =>
    obtain ⟨g, gs, hgs⟩ := List.exists_cons_of_ne_nil ih
    rw [splitOn, hgs]
    by_cases hc : c = sep <;> simp [hc]

theorem splitOn_sepFree (sep : Char) : ∀ (g : List Char), sep ∉ g → splitOn sep g = [g] := by
  intro g
  induction g with
  | nil => intro _; rfl
  | cons c cs ih =>
    intro h
    simp only [List.mem_cons, not_or] at h
    rw [splitOn, ih h.2]
    simp only
    rw [if_neg (fun hc => h.1 hc.symm)]

theorem splitOn_append (sep : Char) : ∀ (g rest : List Char), sep ∉ g →
    splitOn sep (g ++ sep :: rest) = g :: splitOn sep rest := by
  intro g
  induction g with
  | nil =>
    intro rest _
    obtain ⟨g', gs', hgs⟩ := List.exists_cons_of_ne_nil (splitOn_ne_nil sep rest)
    simp only [List.nil_append]
    rw [splitOn, hgs]
    simp [hgs]
  | cons c cs ih =>
    intro rest h
    simp only [List.mem_cons, not_or] at h
    simp only [List.cons_append]
    rw [splitOn, ih rest h.2]
    simp only
    rw [if_neg (fun hc => h.1 hc.symm)]

theorem joinSep_cons (sep : Char) (g : List Char) (gs : List (List Char)) (h : gs ≠ []) :
    joinSep sep (g :: gs) = g ++ sep :: joinSep sep gs := by
  cases gs with
  | nil => exact absurd rfl h
  | cons g2 gs' => rfl

theorem splitOn_joinSep (sep : Char) : ∀ (gs : List (List Char)), gs ≠ [] →
    (∀ g ∈ gs, sep ∉ g) → splitOn sep (joinSep sep gs) = gs := by
  intro gs
  induction gs with
  | nil => intro h; exact absurd rfl h
  | cons g gs' ih =>
    intro _ hmem
    cases gs' with
    | nil => simpa [joinSep] using splitOn_sepFree sep g (hmem g (by simp))
    | cons g2 gs'' =>
      rw [joinSep_cons sep g _ (by simp)]
      rw [splitOn_append sep g _ (hmem g (by simp))]
      rw [ih (by simp) (fun x hx => hmem x (by simp [hx]))]

theorem mem_joinSep {x sep : Char} : ∀ {gs : List (List Char)},
    x ∈ joinSep sep gs → x = sep ∨ ∃ g ∈ gs, x ∈ g := by
  intro gs
  induction gs with
  | nil => intro h; simp [joinSep] at h
  | cons g gs' ih =>
    intro h
    cases gs' with
    | nil =>
      simp only [joinSep] at h
      exact Or.inr ⟨g, by simp, h⟩
    | cons g2 gs'' =>
      rw [joinSep_cons _ _ _ (by simp)] at h
      rcases List.mem_append.mp h with h | h
      · exact Or.inr ⟨g, by simp, h⟩
      · rcases List.mem_cons.mp h with h | h
        · exact Or.inl h
        · rcases ih h with h | ⟨g', hg', hx⟩
          · exact Or.inl h
          · exact Or.inr ⟨g', by simp [hg'], hx⟩

/-! ## The regex matchers -/

theorem digitCount_append_nondigit (g : List Char) (hg : ∀ c ∈ g, c.isDigit = true)
    (c : Char) (hc : c.isDigit = false) (rest : List Char) :
    digitCount (g ++ c :: rest) = g.length := by
  induction g with
  | nil => simp [digitCount, hc]
  | cons x xs ih =>
    show digitCount (x :: (xs ++ c :: rest)) = xs.length + 1
    simp only [digitCount, hg x (by simp), if_true]
    rw [ih (fun y hy => hg y (by simp [hy]))]

theorem hexCount_append_nonhex (g : List Char) (hg : ∀ c ∈ g, isHexDigitChar c = true)
    (c : Char) (hc : isHexDigitChar c = false) (rest : List Char) :
    hexCount (g ++ c :: rest) = g.length := by
  induction g with
  | nil => simp [hexCount, hc]
  | cons x xs ih =>
    show hexCount (x :: (xs ++ c :: rest)) = xs.length + 1
    simp only [hexCount, hg x (by simp), if_true]
    rw [ih (fun y hy => hg y (by simp [hy]))]

theorem matchGroupDot_append (g rest : List Char) (hg : ∀ c ∈ g, c.isDigit = true)
    (h1 : 1 ≤ g.length) (h3 : g.length ≤ 3) :
    matchGroupDot (g ++ '.' :: rest) = some rest := by
  have hd : digitCount (g ++ '.' :: rest) = g.length :=
    digitCount_append_nondigit g hg '.' (by decide) rest
  simp only [matchGroupDot, hd]
  rw [if_pos ⟨h1, h3⟩, List.drop_left]
  simp

theorem matchHexColon_append (g rest : List Char) (hg : ∀ c ∈ g, isHexDigitChar c = true)
    (h1 : 1 ≤ g.length) (h4 : g.length ≤ 4) :
    matchHexColon (g ++ ':' :: rest) = some rest := by
  have hd : hexCount (g ++ ':' :: rest) = g.length :=
    hexCount_append_nonhex g hg ':' (by decide) rest
  simp only [matchHexColon, hd]
  rw [if_pos ⟨h1, h4⟩, List.drop_left]
  simp

theorem matchGroupDot_none_of_no_dot (cs : List Char) (h : '.' ∉ cs) :
    matchGroupDot cs = none := by
  simp only [matchGroupDot]
  split
  · cases hd : cs.drop (digitCount cs) with
    | nil => simp
    | cons x xs =>
      have hx : x ≠ '.' := by
        intro hx
        apply h
        have hmem : x ∈ cs.drop (digitCount cs) := by
          rw [hd]; exact List.mem_cons_self x xs
        exact hx ▸ List.drop_subset _ _ hmem
      simp [hx]
  · rfl

theorem v4Test_false_of_no_dot (s : String) (h : '.' ∉ s.data) : v4Test s = false := by
  rw [v4Test, matchGroupDot_none_of_no_dot s.data h]

theorem startsWithDigit_joinSep (sep c : Char) (t : List Char) (gs : List (List Char)) :
    startsWithDigit (joinSep sep ((c :: t) :: gs)) = c.isDigit := by
  cases gs <;> simp [joinSep, startsWithDigit]

theorem v4Test_joinSep (g1 g2 g3 g4 : List Char) (gs : List (List Char))
    (hg1 : ∀ c ∈ g1, c.isDigit = true) (l1a : 1 ≤ g1.length) (l1b : g1.length ≤ 3)
    (hg2 : ∀ c ∈ g2, c.isDigit = true) (l2a : 1 ≤ g2.length) (l2b : g2.length ≤ 3)
    (hg3 : ∀ c ∈ g3, c.isDigit = true) (l3a : 1 ≤ g3.length) (l3b : g3.length ≤ 3)
    (hg4 : ∃ c t, g4 = c :: t ∧ c.isDigit = true) :
    v4Test ⟨joinSep '.' (g1 :: g2 :: g3 :: g4 :: gs)⟩ = true := by
  obtain ⟨c, t, rfl, hc⟩ := hg4
  have m1 : matchGroupDot (joinSep '.' (g1 :: g2 :: g3 :: (c :: t) :: gs)) =
      some (joinSep '.' (g2 :: g3 :: (c :: t) :: gs)) := by
    rw [joinSep_cons _ _ _ (by simp)]
    exact matchGroupDot_append _ _ hg1 l1a l1b
  have m2 : matchGroupDot (joinSep '.' (g2 :: g3 :: (c :: t) :: gs)) =
      some (joinSep '.' (g3 :: (c :: t) :: gs)) := by
    rw [joinSep_cons _ _ _ (by simp)]
    exact matchGroupDot_append _ _ hg2 l2a l2b
  have m3 : matchGroupDot (joinSep '.' (g3 :: (c :: t) :: gs)) =
      some (joinSep '.' ((c :: t) :: gs)) := by
    rw [joinSep_cons _ _ _ (by simp)]
    exact matchGroupDot_append _ _ hg3 l3a l3b
  rw [v4Test]
  simp only [m1, m2, m3, startsWithDigit_joinSep, hc]



/-! ## Bounds for hex groups -/

theorem hexDigitVal_lt (c : Char) (h : isHexDigitChar c = true) : hexDigitVal c < 16 := by
  rw [hexDigitVal]
  by_cases hd : c.isDigit
  · rw [if_pos hd]
    simp [Char.isDigit] at hd
    have h1 : (48 : Nat) ≤ c.toNat := by
      have := hd.1; rw [UInt32.le_def] at this; exact this
    have h2 : c.toNat ≤ 57 := by
      have := hd.2; rw [UInt32.le_def] at this; exact this
    omega
  · rw [if_neg hd]
    have hd' : c.isDigit = false := by simpa using hd
    simp only [isHexDigitChar, Bool.or_eq_true, Bool.and_eq_true, decide_eq_true_eq, hd',
               Bool.false_eq_true, false_or] at h
    rcases h with ⟨ha, hf⟩ | ⟨hA, hF⟩
    · have h1 : (97 : Nat) ≤ c.toNat := by
        have : ('a' : Char).val ≤ c.val := ha
        rw [UInt32.le_def] at this; exact this
      have h2 : c.toNat ≤ 102 := by
        have : c.val ≤ ('f' : Char).val := hf
        rw [UInt32.le_def] at this; exact this
      rw [if_pos ha]
      omega
    · have h1 : (65 : Nat) ≤ c.toNat := by
        have : ('A' : Char).val ≤ c.val := hA
        rw [UInt32.le_def] at this; exact this
      have h2 : c.toNat ≤ 70 := by
        have : c.val ≤ ('F' : Char).val := hF
        rw [UInt32.le_def] at this; exact this
      have hna : ¬ ('a' : Char) ≤ c := by
        intro hc
        have : (97 : Nat) ≤ c.toNat := by
          have : ('a' : Char).val ≤ c.val := hc
          rw [UInt32.le_def] at this; exact this
        omega
      rw [if_neg hna]
      omega

theorem hexValChars_foldl_lt :
    ∀ (g : List Char) (a : Nat), (∀ c ∈ g, isHexDigitChar c = true) →
      g.foldl (fun x c => x * 16 + hexDigitVal c) a < (a + 1) * 16 ^ g.length := by
  intro g
  induction g with
  | nil => intro a _; simp
  | cons c cs ih =>
    intro a hall
    have hv : hexDigitVal c < 16 := hexDigitVal_lt c (hall c (by simp))
    have step := ih (a * 16 + hexDigitVal c) (fun y hy => hall y (by simp [hy]))
    have hle : (a * 16 + hexDigitVal c + 1) * 16 ^ cs.length ≤ (a + 1) * 16 ^ (cs.length + 1) := by
      have : a * 16 + hexDigitVal c + 1 ≤ (a + 1) * 16 := by omega
      calc (a * 16 + hexDigitVal c + 1) * 16 ^ cs.length
          ≤ ((a + 1) * 16) * 16 ^ cs.length := Nat.mul_le_mul_right _ this
        _ = (a + 1) * 16 ^ (cs.length + 1) := by ring
    simp only [List.foldl_cons, List.length_cons]
    exact lt_of_lt_of_le step hle

theorem hexValChars_lt_65536 (g : List Char) (hg : ∀ c ∈ g, isHexDigitChar c = true)
    (hl : g.length ≤ 4) : hexValChars g < 65536 := by
  have h := hexValChars_foldl_lt g 0 hg
  have : (16 : Nat) ^ g.length ≤ 16 ^ 4 := Nat.pow_le_pow_right (by omega) hl
  calc hexValChars g < (0 + 1) * 16 ^ g.length := h
    _ = 16 ^ g.length := by ring
    _ ≤ 16 ^ 4 := this
    _ = 65536 := by norm_num



/-! ## `v6Pattern` on colon-joined hex groups -/

theorem matchHexGroups_joinSep : ∀ (gs : List (List Char)) (g : List Char),
    (∀ x ∈ gs, 1 ≤ x.length ∧ x.length ≤ 4 ∧ ∀ c ∈ x, isHexDigitChar c = true) →
    matchHexGroups gs.length (joinSep ':' (gs ++ [g])) = some g := by
  intro gs
  induction gs with
  | nil => intro g _; rfl
  | cons x gs' ih =>
    intro g hx
    have h1 := hx x (by simp)
    simp only [List.length_cons, List.cons_append, matchHexGroups]
    rw [joinSep_cons _ _ _ (by simp)]
    rw [matchHexColon_append _ _ h1.2.2 h1.1 h1.2.1]
    exact ih g (fun y hy => hx y (by simp [hy]))

theorem v6Test_joinSep (g1 g2 g3 g4 g5 g6 g7 g8 : List Char)
    (hall : ∀ x ∈ [g1, g2, g3, g4, g5, g6, g7, g8],
        1 ≤ x.length ∧ x.length ≤ 4 ∧ ∀ c ∈ x, isHexDigitChar c = true) :
    v6Test ⟨joinSep ':' [g1, g2, g3, g4, g5, g6, g7, g8]⟩ = true := by
  have h := matchHexGroups_joinSep [g1, g2, g3, g4, g5, g6, g7] g8
    (fun y hy => hall y (by simp only [List.mem_cons, List.not_mem_nil, or_false] at hy ⊢; tauto))
  simp only [List.length_cons, List.length_nil, List.cons_append, List.nil_append] at h
  rw [v6Test]
  simp only [h]
  have h8 := hall g8 (by simp)
  simp [hexGroupEnd, h8.1, h8.2.1, List.all_eq_true.mpr h8.2.2]

theorem v4Test_false_of_hexGroups (g1 g2 g3 g4 g5 g6 g7 g8 : List Char)
    (hall : ∀ x ∈ [g1, g2, g3, g4, g5, g6, g7, g8], ∀ c ∈ x, isHexDigitChar c = true) :
    v4Test ⟨joinSep ':' [g1, g2, g3, g4, g5, g6, g7, g8]⟩ = false := by
  apply v4Test_false_of_no_dot
  intro hmem
  rcases mem_joinSep hmem with h | ⟨g, hg, hx⟩
  · exact absurd h (by decide)
  · have := hall g hg '.' hx
    exact absurd this (by decide)



theorem mod256_idem (n : Nat) : n % 256 % 256 = n % 256 := by omega

/-- The IPv4 branch of `serializeAddress` on a dot-joined list of digit
groups (the first three of width 1–3, as the pattern requires): one byte per
group — however many groups there are. -/
theorem serializeAddress_v4_joinSep (g1 g2 g3 g4 : List Char) (gs : List (List Char)) (p : Nat)
    (hall : ∀ g ∈ g1 :: g2 :: g3 :: g4 :: gs, g ≠ [] ∧ ∀ c ∈ g, c.isDigit = true)
    (l1 : g1.length ≤ 3) (l2 : g2.length ≤ 3) (l3 : g3.length ≤ 3) :
    serializeAddress ⟨joinSep '.' (g1 :: g2 :: g3 :: g4 :: gs)⟩ p =
      AddrType.IPv4 :: (g1 :: g2 :: g3 :: g4 :: gs).map (fun g => decValueChars g % 256)
        ++ [p / 256 % 256, p % 256] := by
  obtain ⟨c, t, hg4⟩ : ∃ c t, g4 = c :: t := by
    cases hg : g4 with
    | nil => exact absurd hg (hall g4 (by simp)).1
    | cons c t => exact ⟨c, t, rfl⟩
  have hv4 : v4Test ⟨joinSep '.' (g1 :: g2 :: g3 :: g4 :: gs)⟩ = true := by
    refine v4Test_joinSep g1 g2 g3 g4 gs (hall g1 (by simp)).2
      (List.length_pos.mpr (hall g1 (by simp)).1) l1
      (hall g2 (by simp)).2 (List.length_pos.mpr (hall g2 (by simp)).1) l2
      (hall g3 (by simp)).2 (List.length_pos.mpr (hall g3 (by simp)).1) l3
      ⟨c, t, hg4, (hall g4 (by simp)).2 c (by simp [hg4])⟩
  have hdotfree : ∀ g ∈ g1 :: g2 :: g3 :: g4 :: gs, '.' ∉ g := by
    intro g hg hdot
    exact absurd ((hall g hg).2 '.' hdot) (by decide)
  rw [serializeAddress]
  simp only [hv4, if_true]
  rw [splitOn_joinSep '.' _ (by simp) hdotfree]
  rw [List.map_congr_left (fun g hg => show jsNumberByte g = decValueChars g by
    rw [jsNumberByte, if_pos (List.all_eq_true.mpr (hall g hg).2)])]
  rw [toUint8Array]
  simp [Function.comp, mod256_idem, AddrType.IPv4]



/-! ## UTF-8: byte bounds and the decode/encode round-trip -/

theorem char_toNat_lt (c : Char) : c.toNat < 1114112 := by
  rcases c.valid with h | h
  · have : c.toNat < 55296 := h
    omega
  · exact h.2

theorem utf8EncodeChar_lt_256 (c : Char) : ∀ b ∈ utf8EncodeChar c, b < 256 := by
  have hv := char_toNat_lt c
  intro b hb
  rw [utf8EncodeChar] at hb
  by_cases h1 : c.toNat < 0x80
  · simp [h1] at hb
    omega
  · by_cases h2 : c.toNat < 0x800
    · simp [h1, h2] at hb
      rcases hb with h | h <;> omega
    · by_cases h3 : c.toNat < 0x10000
      · simp [h1, h2, h3] at hb
        rcases hb with h | h | h <;> omega
      · simp [h1, h2, h3] at hb
        rcases hb with h | h | h | h <;> omega

theorem utf8Bytes_lt_256 (s : String) : ∀ b ∈ utf8Bytes s, b < 256 := by
  intro b hb
  rw [utf8Bytes] at hb
  obtain ⟨c, _, hbc⟩ := List.mem_flatMap.mp hb
  exact utf8EncodeChar_lt_256 c b hbc

theorem utf8DecodeAux_flatMap :
    ∀ (l : List Char) (fuel : Nat), l.length ≤ fuel →
      utf8DecodeAux fuel (l.flatMap utf8EncodeChar) = l := by
  intro l
  induction l with
  | nil =>
    intro fuel _
    cases fuel <;> simp [utf8DecodeAux]
  | cons c cs ih =>
    intro fuel hf
    obtain ⟨f, rfl⟩ : ∃ f, fuel = f + 1 := by
      cases fuel with
      | zero => simp at hf
      | succ f => exact ⟨f, rfl⟩
    have hcs : cs.length ≤ f := by simpa using hf
    have hofnat := Char.ofNat_toNat c
    rw [List.flatMap_cons, utf8EncodeChar]
    by_cases h1 : c.toNat < 0x80
    · rw [if_pos h1]
      show utf8DecodeAux (f + 1) (c.toNat :: cs.flatMap utf8EncodeChar) = c :: cs
      simp only [utf8DecodeAux]
      rw [if_pos h1, hofnat, ih f hcs]
    · by_cases h2 : c.toNat < 0x800
      · rw [if_neg h1, if_pos h2]
        have e1 : ¬ (0xC0 + c.toNat / 64 < 0x80) := by omega
        have e2 : ¬ (0xC0 + c.toNat / 64 < 0xC0) := by omega
        have e3 : 0xC0 + c.toNat / 64 < 0xE0 := by omega
        show utf8DecodeAux (f + 1)
            ((0xC0 + c.toNat / 64) :: (0x80 + c.toNat % 64) :: cs.flatMap utf8EncodeChar) =
          c :: cs
        simp only [utf8DecodeAux]
        rw [if_neg e1, if_neg e2, if_pos e3]
        have hval : (0xC0 + c.toNat / 64 - 0xC0) * 64 + (0x80 + c.toNat % 64 - 0x80)
            = c.toNat := by omega
        rw [hval, hofnat, ih f hcs]
      · by_cases h3 : c.toNat < 0x10000
        · rw [if_neg h1, if_neg h2, if_pos h3]
          have e1 : ¬ (0xE0 + c.toNat / 4096 < 0x80) := by omega
          have e2 : ¬ (0xE0 + c.toNat / 4096 < 0xC0) := by omega
          have e3 : ¬ (0xE0 + c.toNat / 4096 < 0xE0) := by omega
          have e4 : 0xE0 + c.toNat / 4096 < 0xF0 := by omega
          show utf8DecodeAux (f + 1)
              ((0xE0 + c.toNat / 4096) :: (0x80 + c.toNat / 64 % 64) ::
               (0x80 + c.toNat % 64) :: cs.flatMap utf8EncodeChar) = c :: cs
          simp only [utf8DecodeAux]
          rw [if_neg e1, if_neg e2, if_neg e3, if_pos e4]
          have hval : (0xE0 + c.toNat / 4096 - 0xE0) * 4096
              + (0x80 + c.toNat / 64 % 64 - 0x80) * 64
              + (0x80 + c.toNat % 64 - 0x80) = c.toNat := by omega
          rw [hval, hofnat, ih f hcs]
        · rw [if_neg h1, if_neg h2, if_neg h3]
          have hv := char_toNat_lt c
          have e1 : ¬ (0xF0 + c.toNat / 0x40000 < 0x80) := by omega
          have e2 : ¬ (0xF0 + c.toNat / 0x40000 < 0xC0) := by omega
          have e3 : ¬ (0xF0 + c.toNat / 0x40000 < 0xE0) := by omega
          have e4 : ¬ (0xF0 + c.toNat / 0x40000 < 0xF0) := by omega
          show utf8DecodeAux (f + 1)
              ((0xF0 + c.toNat / 0x40000) :: (0x80 + c.toNat / 4096 % 64) ::
               (0x80 + c.toNat / 64 % 64) :: (0x80 + c.toNat % 64) ::
               cs.flatMap utf8EncodeChar) = c :: cs
          simp only [utf8DecodeAux]
          rw [if_neg e1, if_neg e2, if_neg e3, if_neg e4]
          have hval : (0xF0 + c.toNat / 0x40000 - 0xF0) * 0x40000
              + (0x80 + c.toNat / 4096 % 64 - 0x80) * 4096
              + (0x80 + c.toNat / 64 % 64 - 0x80) * 64
              + (0x80 + c.toNat % 64 - 0x80) = c.toNat := by omega
          rw [hval, hofnat, ih f hcs]

theorem utf8EncodeChar_length_pos (c : Char) : 1 ≤ (utf8EncodeChar c).length := by
  rw [utf8EncodeChar]
  split
  · simp
  · split
    · simp
    · split <;> simp

theorem length_le_flatMap_utf8 (l : List Char) :
    l.length ≤ (l.flatMap utf8EncodeChar).length := by
  induction l with
  | nil => simp
  | cons c cs ih =>
    rw [List.flatMap_cons, List.length_append, List.length_cons]
    have := utf8EncodeChar_length_pos c
    omega

theorem utf8Decode_utf8Bytes (s : String) : utf8Decode (utf8Bytes s) = s.data := by
  rw [utf8Decode, utf8Bytes]
  exact utf8DecodeAux_flatMap s.data _ (length_le_flatMap_utf8 s.data)



/-- The IPv6 branch of `serializeAddress` on a colon-joined list of 8 hex
groups: type byte 4, then each group's value as two big-endian bytes. -/
theorem serializeAddress_v6_joinSep (g1 g2 g3 g4 g5 g6 g7 g8 : List Char) (p : Nat)
    (hall : ∀ x ∈ [g1, g2, g3, g4, g5, g6, g7, g8],
        1 ≤ x.length ∧ x.length ≤ 4 ∧ ∀ c ∈ x, isHexDigitChar c = true) :
    serializeAddress ⟨joinSep ':' [g1, g2, g3, g4, g5, g6, g7, g8]⟩ p =
      AddrType.IPv6 ::
        hexValChars g1 / 256 :: hexValChars g1 % 256 ::
        hexValChars g2 / 256 :: hexValChars g2 % 256 ::
        hexValChars g3 / 256 :: hexValChars g3 % 256 ::
        hexValChars g4 / 256 :: hexValChars g4 % 256 ::
        hexValChars g5 / 256 :: hexValChars g5 % 256 ::
        hexValChars g6 / 256 :: hexValChars g6 % 256 ::
        hexValChars g7 / 256 :: hexValChars g7 % 256 ::
        hexValChars g8 / 256 :: hexValChars g8 % 256 :: [p / 256 % 256, p % 256] := by
  have hv4 : v4Test ⟨joinSep ':' [g1, g2, g3, g4, g5, g6, g7, g8]⟩ = false :=
    v4Test_false_of_hexGroups g1 g2 g3 g4 g5 g6 g7 g8 (fun x hx => (hall x hx).2.2)
  have hv6 : v6Test ⟨joinSep ':' [g1, g2, g3, g4, g5, g6, g7, g8]⟩ = true :=
    v6Test_joinSep g1 g2 g3 g4 g5 g6 g7 g8 hall
  have hcolon : ∀ g ∈ [g1, g2, g3, g4, g5, g6, g7, g8], ':' ∉ g := fun g hg hc =>
    absurd ((hall g hg).2.2 ':' hc) (by decide)
  have hlt : ∀ g ∈ [g1, g2, g3, g4, g5, g6, g7, g8], hexValChars g < 65536 := fun g hg =>
    hexValChars_lt_65536 g (hall g hg).2.2 (hall g hg).2.1
  have d1 : hexValChars g1 / 256 % 256 = hexValChars g1 / 256 :=
    Nat.mod_eq_of_lt (by have := hlt g1 (by simp); omega)
  have d2 : hexValChars g2 / 256 % 256 = hexValChars g2 / 256 :=
    Nat.mod_eq_of_lt (by have := hlt g2 (by simp); omega)
  have d3 : hexValChars g3 / 256 % 256 = hexValChars g3 / 256 :=
    Nat.mod_eq_of_lt (by have := hlt g3 (by simp); omega)
  have d4 : hexValChars g4 / 256 % 256 = hexValChars g4 / 256 :=
    Nat.mod_eq_of_lt (by have := hlt g4 (by simp); omega)
  have d5 : hexValChars g5 / 256 % 256 = hexValChars g5 / 256 :=
    Nat.mod_eq_of_lt (by have := hlt g5 (by simp); omega)
  have d6 : hexValChars g6 / 256 % 256 = hexValChars g6 / 256 :=
    Nat.mod_eq_of_lt (by have := hlt g6 (by simp); omega)
  have d7 : hexValChars g7 / 256 % 256 = hexValChars g7 / 256 :=
    Nat.mod_eq_of_lt (by have := hlt g7 (by simp); omega)
  have d8 : hexValChars g8 / 256 % 256 = hexValChars g8 / 256 :=
    Nat.mod_eq_of_lt (by have := hlt g8 (by simp); omega)
  rw [serializeAddress]
  simp only [hv4, Bool.false_eq_true, if_false, hv6, if_true]
  rw [splitOn_joinSep ':' _ (by simp) hcolon]
  rw [toUint8Array]
  simp [d1, d2, d3, d4, d5, d6, d7, d8, mod256_idem, AddrType.IPv6]

/-- The domain-name branch of `serializeAddress`. -/
theorem serializeAddress_domain_branch (s : String) (p : Nat)
    (h4 : v4Test s = false) (h6 : v6Test s = false) (hlen : (utf8Bytes s).length ≤ 255) :
    serializeAddress s p =
      AddrType.DomainName :: (utf8Bytes s).length :: (utf8Bytes s ++ [p / 256 % 256, p % 256]) := by
  have hmap : (utf8Bytes s).map (· % 256) = utf8Bytes s := by
    rw [List.map_congr_left
      (fun b hb => show b % 256 = id b from Nat.mod_eq_of_lt (utf8Bytes_lt_256 s b hb))]
    exact List.map_id _
  rw [serializeAddress]
  simp only [h4, Bool.false_eq_true, if_false, h6]
  rw [toUint8Array]
  simp only [List.map_cons, List.map_append, hmap]
  rw [Nat.mod_eq_of_lt (show (utf8Bytes s).length < 256 by omega)]
  simp [mod256_idem, AddrType.DomainName]



theorem roundtrip_ipv4_canonical (a b c d p : Nat) (ha : a ≤ 255) (hb : b ≤ 255) (hc : c ≤ 255)
    (hd : d ≤ 255) (hp : p < 65536) :
    deserializeAddressBytes (serializeAddress ⟨renderParts '.' [a, b, c, d]⟩ p) =
      .ok ⟨⟨renderParts '.' [a, b, c, d]⟩, p, 7⟩ := by
  have hall : ∀ g ∈ [natToDecChars a, natToDecChars b, natToDecChars c, natToDecChars d],
      g ≠ [] ∧ ∀ ch ∈ g, ch.isDigit = true := by
    intro g hg
    simp only [List.mem_cons, List.not_mem_nil, or_false] at hg
    rcases hg with rfl | rfl | rfl | rfl <;>
      exact ⟨natToDecChars_ne_nil _, natToDecChars_all_digit _⟩
  have hlen : ∀ n : Nat, n ≤ 255 → (natToDecChars n).length ≤ 3 := fun n hn =>
    natToDecChars_length_le (by norm_num; omega) (by norm_num)
  have hser := serializeAddress_v4_joinSep (natToDecChars a) (natToDecChars b)
    (natToDecChars c) (natToDecChars d) [] p (by simpa using hall)
    (hlen a ha) (hlen b hb) (hlen c hc)
  have hmk : (⟨renderParts '.' [a, b, c, d]⟩ : String) =
      ⟨joinSep '.' [natToDecChars a, natToDecChars b, natToDecChars c, natToDecChars d]⟩ := rfl
  rw [hmk, hser]
  have ea : decValueChars (natToDecChars a) % 256 = a := by
    rw [decValueChars_natToDecChars]; omega
  have eb : decValueChars (natToDecChars b) % 256 = b := by
    rw [decValueChars_natToDecChars]; omega
  have ec : decValueChars (natToDecChars c) % 256 = c := by
    rw [decValueChars_natToDecChars]; omega
  have ed : decValueChars (natToDecChars d) % 256 = d := by
    rw [decValueChars_natToDecChars]; omega
  simp only [List.map_cons, List.map_nil, ea, eb, ec, ed, List.cons_append, List.nil_append]
  have hdes := deserializeAddressBytes_ipv4 a b c d (p / 256 % 256) (p % 256) []
  rw [show AddrType.IPv4 :: a :: b :: c :: d :: [p / 256 % 256, p % 256] =
        AddrType.IPv4 :: a :: b :: c :: d :: p / 256 % 256 :: p % 256 :: [] from rfl]
  rw [hdes]
  have e2 : a % 256 = a := by omega
  have e3 : b % 256 = b := by omega
  have e4 : c % 256 = c := by omega
  have e5 : d % 256 = d := by omega
  have hport : p / 256 % 256 % 256 * 256 + p % 256 % 256 = p := by omega
  rw [e2, e3, e4, e5, hport, hmk]
theorem roundtrip_ipv6_decimal (g1 g2 g3 g4 g5 g6 g7 g8 : List Char) (p : Nat)
    (hall : ∀ x ∈ [g1, g2, g3, g4, g5, g6, g7, g8],
        1 ≤ x.length ∧ x.length ≤ 4 ∧ ∀ c ∈ x, isHexDigitChar c = true)
    (hp : p < 65536) :
    deserializeAddressBytes (serializeAddress ⟨joinSep ':' [g1, g2, g3, g4, g5, g6, g7, g8]⟩ p) =
      .ok ⟨⟨renderParts ':' ([g1, g2, g3, g4, g5, g6, g7, g8].map hexValChars)⟩, p, 19⟩ := by
  rw [serializeAddress_v6_joinSep g1 g2 g3 g4 g5 g6 g7 g8 p hall]
  have hdes := deserializeAddressBytes_ipv6
    (hexValChars g1 / 256) (hexValChars g1 % 256) (hexValChars g2 / 256) (hexValChars g2 % 256)
    (hexValChars g3 / 256) (hexValChars g3 % 256) (hexValChars g4 / 256) (hexValChars g4 % 256)
    (hexValChars g5 / 256) (hexValChars g5 % 256) (hexValChars g6 / 256) (hexValChars g6 % 256)
    (hexValChars g7 / 256) (hexValChars g7 % 256) (hexValChars g8 / 256) (hexValChars g8 % 256)
    (p / 256 % 256) (p % 256) []
  rw [hdes]
  have hlt : ∀ g ∈ [g1, g2, g3, g4, g5, g6, g7, g8], hexValChars g < 65536 := fun g hg =>
    hexValChars_lt_65536 g (hall g hg).2.2 (hall g hg).2.1
  have collapse : ∀ g ∈ [g1, g2, g3, g4, g5, g6, g7, g8],
      hexValChars g / 256 % 256 * 256 + hexValChars g % 256 % 256 = hexValChars g := by
    intro g hg
    have := hlt g hg
    omega
  have c1 := collapse g1 (by simp)
  have c2 := collapse g2 (by simp)
  have c3 := collapse g3 (by simp)
  have c4 := collapse g4 (by simp)
  have c5 := collapse g5 (by simp)
  have c6 := collapse g6 (by simp)
  have c7 := collapse g7 (by simp)
  have c8 := collapse g8 (by simp)
  have hport : p / 256 % 256 % 256 * 256 + p % 256 % 256 = p := by omega
  simp only [pairBE, c1, c2, c3, c4, c5, c6, c7, c8, hport]
  rfl

theorem roundtrip_domain (s : String) (p : Nat) (h4 : v4Test s = false) (h6 : v6Test s = false)
    (hlen : (utf8Bytes s).length ≤ 255) (hp : p < 65536) :
    deserializeAddressBytes (serializeAddress s p) =
      .ok ⟨s, p, (utf8Bytes s).length + 4⟩ := by
  rw [serializeAddress_domain_branch s p h4 h6 hlen]
  have hdes := deserializeAddressBytes_domain (utf8Bytes s).length (by omega) (utf8Bytes s) rfl
    (p / 256 % 256) (p % 256) []
  refine Eq.trans hdes ?_
  have hmap : (utf8Bytes s).map (· % 256) = utf8Bytes s := by
    rw [List.map_congr_left
      (fun b hb => show b % 256 = id b from Nat.mod_eq_of_lt (utf8Bytes_lt_256 s b hb))]
    exact List.map_id _
  have hstr : utf8DecodeStr (utf8Bytes s) = s := by
    rw [utf8DecodeStr, utf8Decode_utf8Bytes]
  have hport : p / 256 % 256 % 256 * 256 + p % 256 % 256 = p := by omega
  rw [hmap, hstr, hport]

/-! ## C8: the IPv4 branch of the encoder -/

theorem takeWhile_eq_self_of_all {p : Char → Bool} : ∀ (l : List Char),
    (∀ c ∈ l, p c = true) → l.takeWhile p = l := by
  intro l
  induction l with
  | nil => intro _; rfl
  | cons c cs ih =>
    intro h
    rw [List.takeWhile_cons, h c (by simp), ih (fun y hy => h y (by simp [hy]))]
    simp

theorem dropWhile_eq_nil_of_all {p : Char → Bool} : ∀ (l : List Char),
    (∀ c ∈ l, p c = true) → l.dropWhile p = [] := by
  intro l
  induction l with
  | nil => intro _; rfl
  | cons c cs ih =>
    intro h
    rw [List.dropWhile_cons, h c (by simp)]
    exact ih (fun y hy => h y (by simp [hy]))

theorem dropWhile_eq_self_of_none {p : Char → Bool} (l : List Char)
    (h : ∀ c ∈ l, p c = false) : l.dropWhile p = l := by
  cases l with
  | nil => rfl
  | cons c cs =>
    rw [List.dropWhile_cons, h c (by simp)]
    simp

theorem digit_toNat_bounds (c : Char) (h : c.isDigit = true) :
    48 ≤ c.toNat ∧ c.toNat ≤ 57 := by
  simp [Char.isDigit] at h
  constructor
  · have := h.1; rw [UInt32.le_def] at this; exact this
  · have := h.2; rw [UInt32.le_def] at this; exact this

theorem jsWhitespace_of_digit (c : Char) (h : c.isDigit = true) :
    jsWhitespace c = false := by
  obtain ⟨h1, h2⟩ := digit_toNat_bounds c h
  simp [jsWhitespace]
  omega

/-- Completeness of the NaN test on digit strings: an all-digit group (the
empty group included) is a numeric literal. -/
theorem possiblyNumericGroup_of_digits (g : List Char) (h : g.all Char.isDigit = true) :
    possiblyNumericGroup g = true := by
  have hall := List.all_eq_true.mp h
  have htrim : trimWs g = g := by
    rw [trimWs, dropWhile_eq_self_of_none g
      (fun c hc => jsWhitespace_of_digit c (hall c hc))]
    rw [dropWhile_eq_self_of_none g.reverse
      (fun c hc => jsWhitespace_of_digit c (hall c (List.mem_reverse.mp hc)))]
    exact List.reverse_reverse g
  cases g with
  | nil =>
    rw [possiblyNumericGroup]
    simp [htrim]
  | cons c cs =>
    have hc : c.isDigit = true := hall c (by simp)
    have hsign : signedPart (c :: cs) = c :: cs := by
      obtain ⟨h1, _⟩ := digit_toNat_bounds c hc
      have hplus : ¬ c = '+' := by
        intro he; subst he; simp at h1
      have hminus : ¬ c = '-' := by
        intro he; subst he; simp at h1
      simp [signedPart, hplus, hminus]
    rw [possiblyNumericGroup]
    simp only [htrim, hsign]
    have hexp : decExpForm (c :: cs) = true := by
      rw [decExpForm]
      simp only [takeWhile_eq_self_of_all (c :: cs) hall,
                 dropWhile_eq_nil_of_all (c :: cs) hall]
      simp
    simp [hexp]

/-- On groups outside the dot-free numeric-literal grammar, `Number` yields
NaN and `ToUint8` stores 0 — which is what `jsNumberByte` computes there. -/
theorem jsNumberByte_eq_zero_of_nan (g : List Char)
    (h : possiblyNumericGroup g = false) : jsNumberByte g = 0 := by
  rw [jsNumberByte]
  by_cases hd : g.all Char.isDigit = true
  · exact absurd (possiblyNumericGroup_of_digits g hd) (by simp [h])
  · rw [if_neg hd]

/-- The IPv4 branch of `serializeAddress` on any dot-joined group list that
matches the prefix pattern (first three groups 1–3 digits, fourth starting
with a digit; nothing is assumed about the rest of the groups): one byte
per group, `Number` then `ToUint8`. -/
theorem serializeAddress_v4_split (g1 g2 g3 g4 : List Char) (gs : List (List Char)) (p : Nat)
    (hg1 : g1 ≠ [] ∧ g1.length ≤ 3 ∧ ∀ c ∈ g1, c.isDigit = true)
    (hg2 : g2 ≠ [] ∧ g2.length ≤ 3 ∧ ∀ c ∈ g2, c.isDigit = true)
    (hg3 : g3 ≠ [] ∧ g3.length ≤ 3 ∧ ∀ c ∈ g3, c.isDigit = true)
    (hg4 : ∃ c t, g4 = c :: t ∧ c.isDigit = true)
    (hdot : ∀ g ∈ g4 :: gs, '.' ∉ g) :
    serializeAddress ⟨joinSep '.' (g1 :: g2 :: g3 :: g4 :: gs)⟩ p =
      AddrType.IPv4 :: (g1 :: g2 :: g3 :: g4 :: gs).map (fun g => jsNumberByte g % 256)
        ++ [p / 256 % 256, p % 256] := by
  have hv4 : v4Test ⟨joinSep '.' (g1 :: g2 :: g3 :: g4 :: gs)⟩ = true :=
    v4Test_joinSep g1 g2 g3 g4 gs
      hg1.2.2 (List.length_pos.mpr hg1.1) hg1.2.1
      hg2.2.2 (List.length_pos.mpr hg2.1) hg2.2.1
      hg3.2.2 (List.length_pos.mpr hg3.1) hg3.2.1
      hg4
  have hdotfree : ∀ g ∈ g1 :: g2 :: g3 :: g4 :: gs, '.' ∉ g := by
    intro g hg
    rcases List.mem_cons.mp hg with rfl | hg
    · exact fun hd => absurd (hg1.2.2 '.' hd) (by decide)
    rcases List.mem_cons.mp hg with rfl | hg
    · exact fun hd => absurd (hg2.2.2 '.' hd) (by decide)
    rcases List.mem_cons.mp hg with rfl | hg
    · exact fun hd => absurd (hg3.2.2 '.' hd) (by decide)
    · exact hdot g hg
  rw [serializeAddress]
  simp only [hv4, if_true]
  rw [splitOn_joinSep '.' _ (by simp) hdotfree]
  rw [toUint8Array]
  simp [Function.comp, mod256_idem, AddrType.IPv4]

/-- C8 counterexample: the claim says a prefix-matching hostname is encoded
as the type byte plus exactly FOUR octets plus the two port bytes.  But the
encoder maps `split(".")` over the WHOLE hostname: `"1.2.3.4.5"` (which
matches the prefix pattern) is encoded with five address octets — 8 bytes in
total, not 7. -/
theorem serializeAddress_five_groups :
    serializeAddress "1.2.3.4.5" 80 = [1, 1, 2, 3, 4, 5, 0, 80] ∧
    (serializeAddress "1.2.3.4.5" 80).length ≠ 7 := ⟨by decide, by decide⟩

/-- C8 (amended, `serializeAddress` IPv4 branch): for every hostname whose
prefix matches the dotted-decimal IPv4 pattern — given here as a dot-joined
group list with the first three groups non-empty runs of at most 3 digits
and the fourth starting with a digit, while the fourth and later groups are
otherwise ARBITRARY dot-free strings (so domain names such as
`"1.2.3.4.example.com"`, `"1.2.3.4a"` and `"1.2.3.4."` are covered) — the
encoder emits the IPv4 type byte, then ONE octet per dot-separated group of
the ENTIRE hostname (the group's `Number` value wrapped into a byte with no
0–255 range validation), then the two big-endian port bytes; a group outside
the numeric-literal grammar has `Number` value NaN and is stored as octet 0,
and an all-digit group is stored as its decimal value wrapped mod 256.  This
is four octets exactly when the hostname has exactly four groups.  (The
hypothesis `hmodel` confines each free group to the fragment on which
`jsNumberByte` models JS `Number`+`ToUint8` exactly: digit runs of at most
15 digits, or strings outside the dot-free numeric-literal grammar.) -/
theorem serializeAddress_v4_branch_spec (g1 g2 g3 g4 : List Char) (gs : List (List Char))
    (p : Nat)
    (hg1 : g1 ≠ [] ∧ g1.length ≤ 3 ∧ ∀ c ∈ g1, c.isDigit = true)
    (hg2 : g2 ≠ [] ∧ g2.length ≤ 3 ∧ ∀ c ∈ g2, c.isDigit = true)
    (hg3 : g3 ≠ [] ∧ g3.length ≤ 3 ∧ ∀ c ∈ g3, c.isDigit = true)
    (hg4 : ∃ c t, g4 = c :: t ∧ c.isDigit = true)
    (hdot : ∀ g ∈ g4 :: gs, '.' ∉ g)
    (hmodel : ∀ g ∈ g4 :: gs,
        (g.all Char.isDigit = true ∧ g.length ≤ 15) ∨ possiblyNumericGroup g = false) :
    serializeAddress ⟨joinSep '.' (g1 :: g2 :: g3 :: g4 :: gs)⟩ p =
      AddrType.IPv4 :: (g1 :: g2 :: g3 :: g4 :: gs).map (fun g => jsNumberByte g % 256)
        ++ [p / 256 % 256, p % 256] ∧
    (∀ g ∈ g4 :: gs, possiblyNumericGroup g = false → jsNumberByte g = 0) ∧
    (∀ g ∈ g1 :: g2 :: g3 :: g4 :: gs, (∀ c ∈ g, c.isDigit = true) →
        jsNumberByte g = decValueChars g) := by
  refine ⟨serializeAddress_v4_split g1 g2 g3 g4 gs p hg1 hg2 hg3 hg4 hdot, ?_, ?_⟩
  · intro g _ h
    exact jsNumberByte_eq_zero_of_nan g h
  · intro g _ h
    rw [jsNumberByte, if_pos (List.all_eq_true.mpr h)]

/-- Witness for `serializeAddress_v4_branch_spec`, exercising the cases the
claim singles out: the prefix-matching domain name `"1.2.3.4.com"` (the
non-numeric group `"com"`, NaN, stored as octet 0), `"1.2.3.4a"` (fourth
group `"4a"`, NaN, octet 0), `"1.2.3.4."` (trailing empty group, `Number("")
= 0`), each encoded with one octet per group. -/
theorem serializeAddress_v4_branch_spec_witness :
    serializeAddress "1.2.3.4.com" 80 = [1, 1, 2, 3, 4, 0, 0, 80] ∧
    serializeAddress "1.2.3.4a" 80 = [1, 1, 2, 3, 0, 0, 80] ∧
    serializeAddress "1.2.3.4." 80 = [1, 1, 2, 3, 4, 0, 0, 80] ∧
    jsNumberByte ['c', 'o', 'm'] = 0 := by
  refine ⟨?_, ?_, ?_, ?_⟩
  · have h := (serializeAddress_v4_branch_spec ['1'] ['2'] ['3'] ['4'] [['c', 'o', 'm']] 80
      (by decide) (by decide) (by decide) ⟨'4', [], by decide⟩ (by decide) (by decide)).1
    have e : ("1.2.3.4.com" : String) =
        ⟨joinSep '.' [['1'], ['2'], ['3'], ['4'], ['c', 'o', 'm']]⟩ := by decide
    rw [e]
    exact h.trans (by decide)
  · have h := (serializeAddress_v4_branch_spec ['1'] ['2'] ['3'] ['4', 'a'] [] 80
      (by decide) (by decide) (by decide) ⟨'4', ['a'], by decide⟩ (by decide) (by decide)).1
    have e : ("1.2.3.4a" : String) =
        ⟨joinSep '.' [['1'], ['2'], ['3'], ['4', 'a']]⟩ := by decide
    rw [e]
    exact h.trans (by decide)
  · have h := (serializeAddress_v4_branch_spec ['1'] ['2'] ['3'] ['4'] [[]] 80
      (by decide) (by decide) (by decide) ⟨'4', [], by decide⟩ (by decide) (by decide)).1
    have e : ("1.2.3.4." : String) =
        ⟨joinSep '.' [['1'], ['2'], ['3'], ['4'], []]⟩ := by decide
    rw [e]
    exact h.trans (by decide)
  · exact (serializeAddress_v4_branch_spec ['1'] ['2'] ['3'] ['4'] [['c', 'o', 'm']] 80
      (by decide) (by decide) (by decide) ⟨'4', [], by decide⟩ (by decide) (by decide)).2.1
      ['c', 'o', 'm'] (by simp) (by decide)

/-! ## C1: the encode/decode round-trip -/

/-- C1 counterexample: `"1.2.3.4.example.com"` is a valid domain-name
hostname, but it matches the IPv4 prefix pattern, so it is encoded as an
IPv4 address (with the extra groups contributing spurious octets: `Number`
of `"example"`/`"com"` is NaN, stored as 0).  Decoding the encoded bytes
yields hostname `"1.2.3.4"` and port 0 — neither the hostname nor the port
round-trips. -/
theorem roundtrip_fails_on_v4Prefix_domain :
    deserializeAddressBytes (serializeAddress "1.2.3.4.example.com" 443) =
      .ok ⟨"1.2.3.4", 0, 7⟩ ∧
    ("1.2.3.4" : String) ≠ "1.2.3.4.example.com" ∧ (0 : Nat) ≠ 443 :=
  ⟨by decide, by decide, by decide⟩

/-- C1 (amended): the round-trip `Decode(Encode(host, port)) = (host, port)`
holds (1) for canonical dotted-quad IPv4 hostnames — four decimal groups
0–255 rendered with no leading zeros — and (3) for hostnames the codec
classifies as domain names (matching neither the IPv4-prefix pattern nor
the IPv6 pattern) whose UTF-8 encoding fits the length byte (≤ 255 bytes).
(2) For IPv6 hostnames (8 hex groups), the PORT round-trips but the
hostname comes back as the colon-joined DECIMAL rendering of the eight
group values (zero-compression is dropped, and the groups are not printed
in hex — see the C4 finding), so even the normalized group sequence is not
preserved in general. -/
theorem deserialize_serialize_roundtrip :
    (∀ a b c d p : Nat, a ≤ 255 → b ≤ 255 → c ≤ 255 → d ≤ 255 → p < 65536 →
      deserializeAddressBytes (serializeAddress ⟨renderParts '.' [a, b, c, d]⟩ p) =
        .ok ⟨⟨renderParts '.' [a, b, c, d]⟩, p, 7⟩) ∧
    (∀ g1 g2 g3 g4 g5 g6 g7 g8 : List Char, ∀ p : Nat,
      (∀ x ∈ [g1, g2, g3, g4, g5, g6, g7, g8],
          1 ≤ x.length ∧ x.length ≤ 4 ∧ ∀ c ∈ x, isHexDigitChar c = true) →
      p < 65536 →
      deserializeAddressBytes
          (serializeAddress ⟨joinSep ':' [g1, g2, g3, g4, g5, g6, g7, g8]⟩ p) =
        .ok ⟨⟨renderParts ':' ([g1, g2, g3, g4, g5, g6, g7, g8].map hexValChars)⟩, p, 19⟩) ∧
    (∀ (s : String) (p : Nat), v4Test s = false → v6Test s = false →
      (utf8Bytes s).length ≤ 255 → p < 65536 →
      deserializeAddressBytes (serializeAddress s p) =
        .ok ⟨s, p, (utf8Bytes s).length + 4⟩) :=
  ⟨roundtrip_ipv4_canonical, roundtrip_ipv6_decimal, roundtrip_domain⟩

/-- Witness for `deserialize_serialize_roundtrip`: the three cases at
concrete addresses.  Note the IPv6 case: `"a:b:c:d:e:f:0:1"` comes back as
`"10:11:12:13:14:15:0:1"` — the groups rendered in decimal. -/
theorem deserialize_serialize_roundtrip_witness :
    deserializeAddressBytes (serializeAddress "127.0.0.1" 8080) =
      .ok ⟨"127.0.0.1", 8080, 7⟩ ∧
    deserializeAddressBytes (serializeAddress "a:b:c:d:e:f:0:1" 443) =
      .ok ⟨"10:11:12:13:14:15:0:1", 443, 19⟩ ∧
    deserializeAddressBytes (serializeAddress "example.com" 443) =
      .ok ⟨"example.com", 443, 15⟩ := by
  refine ⟨?_, ?_, ?_⟩
  · have h := deserialize_serialize_roundtrip.1 127 0 0 1 8080
      (by decide) (by decide) (by decide) (by decide) (by decide)
    exact (by decide : serializeAddress "127.0.0.1" 8080 =
      serializeAddress ⟨renderParts '.' [127, 0, 0, 1]⟩ 8080) ▸ h.trans (by decide)
  · have h := deserialize_serialize_roundtrip.2.1 ['a'] ['b'] ['c'] ['d'] ['e'] ['f'] ['0'] ['1']
      443 (by decide) (by decide)
    exact (by decide : serializeAddress "a:b:c:d:e:f:0:1" 443 =
      serializeAddress ⟨joinSep ':' [['a'], ['b'], ['c'], ['d'], ['e'], ['f'], ['0'], ['1']]⟩
        443) ▸ h.trans (by decide)
  · have h := deserialize_serialize_roundtrip.2.2 "example.com" 443
      (by decide) (by decide) (by decide) (by decide)
    exact h.trans (by decide)



theorem hsWrite_stream (bs : List Nat) (st : HS) : (hsWrite bs st).stream = st.stream := rfl

theorem hsWrite_closed (bs : List Nat) (st : HS) : (hsWrite bs st).closed = st.closed := rfl

theorem hsWrite_written (bs : List Nat) (st : HS) :
    (hsWrite bs st).written = st.written ++ bs.map (· % 256) := rfl

theorem hsClose_eq (ct : Bool) (st : HS) :
    hsClose ct st = { st with closed := st.closed + 1 } := by
  cases ct <;> rfl

theorem readNAux_error_not_checked {n : Nat} : ∀ (s : ByteStream) (acc : List Nat)
    (e : SocksError), readNAux n s acc = .error e → e.isChecked = false := by
  intro s
  induction s with
  | nil =>
    intro acc e h
    rw [readNAux.eq_def] at h
    split at h
    · exact absurd h (by simp)
    · simp only [Except.error.injEq] at h
      subst h
      rfl
  | cons o rest ih =>
    intro acc e h
    rw [readNAux.eq_def] at h
    split at h
    · exact absurd h (by simp)
    · match o with
      | none =>
        simp only [Except.error.injEq] at h
        subst h
        rfl
      | some c =>
        simp only at h
        split at h
        · exact ih _ e h
        · exact absurd h (by simp)

theorem readN_error_not_checked (s : ByteStream) (n : Nat) (e : SocksError)
    (h : readN s n = .error e) : e.isChecked = false :=
  readNAux_error_not_checked s [] e h

theorem deserializeAddress_error_not_checked (s : ByteStream) (e : SocksError)
    (h : deserializeAddress s = .error e) : e.isChecked = false := by
  rw [deserializeAddress] at h
  cases h1 : readN s 1 with
  | error e1 =>
    rw [h1] at h
    simp only [Except.error.injEq] at h
    subst h
    exact readN_error_not_checked _ _ _ h1
  | ok pr1 =>
    obtain ⟨tb, s1⟩ := pr1
    rw [h1] at h
    simp only at h
    by_cases t4 : tb.getD 0 0 = AddrType.IPv4
    · rw [if_pos t4] at h
      cases h2 : readN s1 4 with
      | error e2 =>
        rw [h2] at h
        simp only [Except.error.injEq] at h
        cases h
        exact readN_error_not_checked _ _ _ h2
      | ok pr2 =>
        obtain ⟨parts, s2⟩ := pr2
        rw [h2] at h
        simp only at h
        cases h3 : readN s2 2 with
        | error e3 =>
          rw [h3] at h
          simp only [Except.error.injEq] at h
          cases h
          exact readN_error_not_checked _ _ _ h3
        | ok pr3 =>
          rw [h3] at h
          simp at h
    · rw [if_neg t4] at h
      by_cases t6 : tb.getD 0 0 = AddrType.IPv6
      · rw [if_pos t6] at h
        cases h2 : readN s1 16 with
        | error e2 =>
          rw [h2] at h
          simp only [Except.error.injEq] at h
          cases h
          exact readN_error_not_checked _ _ _ h2
        | ok pr2 =>
          obtain ⟨buff, s2⟩ := pr2
          rw [h2] at h
          simp only at h
          cases h3 : readN s2 2 with
          | error e3 =>
            rw [h3] at h
            simp only [Except.error.injEq] at h
            cases h
            exact readN_error_not_checked _ _ _ h3
          | ok pr3 =>
            rw [h3] at h
            simp at h
      · rw [if_neg t6] at h
        by_cases t3 : tb.getD 0 0 = AddrType.DomainName
        · rw [if_pos t3] at h
          cases h2 : readN s1 1 with
          | error e2 =>
            rw [h2] at h
            simp only [Except.error.injEq] at h
            cases h
            exact readN_error_not_checked _ _ _ h2
          | ok pr2 =>
            obtain ⟨lb, s2⟩ := pr2
            rw [h2] at h
            simp only at h
            cases h3 : readN s2 (lb.getD 0 0) with
            | error e3 =>
              rw [h3] at h
              simp only [Except.error.injEq] at h
              cases h
              exact readN_error_not_checked _ _ _ h3
            | ok pr3 =>
              obtain ⟨nb, s3⟩ := pr3
              rw [h3] at h
              simp only at h
              cases h4 : readN s3 2 with
              | error e4 =>
                rw [h4] at h
                simp only [Except.error.injEq] at h
                cases h
                exact readN_error_not_checked _ _ _ h4
              | ok pr4 =>
                rw [h4] at h
                simp at h
        · rw [if_neg t3] at h
          simp only [Except.error.injEq] at h
          subst h
          rfl



theorem handshakeAuth_closed (ct : Bool) (creds : String × String) (st : HS) :
    (handshakeAuth ct creds st).2.closed =
      st.closed + closedDelta (handshakeAuth ct creds st).1 := by
  rw [handshakeAuth]
  split
  · rename_i e heq
    simp [closedDelta, hsWrite_closed, readN_error_not_checked _ _ _ heq]
  · rename_i pr reply s1 heq
    dsimp only
    split
    · simp only [closedDelta, hsClose_eq, hsWrite_closed]
      split <;> simp [SocksError.isChecked]
    · simp [closedDelta, hsWrite_closed]



theorem handshakeAuth_written (ct : Bool) (creds : String × String) (st : HS) :
    ∃ w, (handshakeAuth ct creds st).2.written = st.written ++ w := by
  rw [handshakeAuth]
  split
  · rename_i e heq
    exact ⟨_, hsWrite_written _ st⟩
  · rename_i pr reply s1 heq
    dsimp only
    split
    · simp only [hsClose_eq]
      exact ⟨_, hsWrite_written _ st⟩
    · exact ⟨_, hsWrite_written _ st⟩

theorem handshakeRequest_closed (ct : Bool) (cmd : Nat) (hostname : String) (port : Nat)
    (st : HS) :
    (handshakeRequest ct cmd hostname port st).2.closed =
      st.closed + closedDelta (handshakeRequest ct cmd hostname port st).1 := by
  rw [handshakeRequest]
  split
  · rename_i e heq
    simp [closedDelta, hsWrite_closed, readN_error_not_checked _ _ _ heq]
  · rename_i pr reply s1 heq
    dsimp only
    split
    · simp only [closedDelta, hsClose_eq, hsWrite_closed]
      split <;> simp [SocksError.isChecked]
    · split
      · rename_i e2 heq2
        simp [closedDelta, hsWrite_closed, deserializeAddress_error_not_checked _ _ heq2]
      · simp [closedDelta, hsWrite_closed]

theorem handshakeRequest_written (ct : Bool) (cmd : Nat) (hostname : String) (port : Nat)
    (st : HS) :
    ∃ w, (handshakeRequest ct cmd hostname port st).2.written = st.written ++ w := by
  rw [handshakeRequest]
  split
  · rename_i e heq
    exact ⟨_, hsWrite_written _ st⟩
  · rename_i pr reply s1 heq
    dsimp only
    split
    · simp only [hsClose_eq]
      exact ⟨_, hsWrite_written _ st⟩
    · split
      · exact ⟨_, hsWrite_written _ st⟩
      · exact ⟨_, hsWrite_written _ st⟩

theorem connectAndRequest_ct (cfg : ClientConfig) (cmd : Nat) (hostname : String)
    (port : Nat) (s : ByteStream) :
    connectAndRequest true cfg cmd hostname port s =
      connectAndRequest false cfg cmd hostname port s := by
  simp only [connectAndRequest, handshakeAuth, handshakeRequest, hsClose_eq]



theorem handshakeAuth_state (ct : Bool) (creds : String × String) (st : HS)
    (r : Except SocksError Unit) (st' : HS) (h : handshakeAuth ct creds st = (r, st')) :
    st'.closed = st.closed + closedDelta r ∧ ∃ w, st'.written = st.written ++ w := by
  have h1 := handshakeAuth_closed ct creds st
  have h2 := handshakeAuth_written ct creds st
  rw [h] at h1 h2
  exact ⟨h1, h2⟩

theorem handshakeRequest_state (ct : Bool) (cmd : Nat) (hostname : String) (port : Nat)
    (st : HS) (r : Except SocksError DeserializedAddr) (st' : HS)
    (h : handshakeRequest ct cmd hostname port st = (r, st')) :
    st'.closed = st.closed + closedDelta r ∧ ∃ w, st'.written = st.written ++ w := by
  have h1 := handshakeRequest_closed ct cmd hostname port st
  have h2 := handshakeRequest_written ct cmd hostname port st
  rw [h] at h1 h2
  exact ⟨h1, h2⟩

theorem connectAndRequest_state (ct : Bool) (cfg : ClientConfig) (cmd : Nat)
    (hostname : String) (port : Nat) (s : ByteStream) :
    (connectAndRequest ct cfg cmd hostname port s).2.closed =
      closedDelta (connectAndRequest ct cfg cmd hostname port s).1 ∧
    ∃ w, (connectAndRequest ct cfg cmd hostname port s).2.written =
      (if cfg.creds.isSome then [5, 2, 0, 2] else [5, 1, 0]) ++ w := by
  have hnb : ∀ st : HS, st.written = [] →
      (hsWrite (SOCKS_VERSION :: (AuthMethod.NoAuth ::
          (if cfg.creds.isSome then [AuthMethod.UsernamePassword] else [])).length ::
        AuthMethod.NoAuth ::
          (if cfg.creds.isSome then [AuthMethod.UsernamePassword] else [])) st).written =
      (if cfg.creds.isSome then [5, 2, 0, 2] else [5, 1, 0]) := by
    intro st hw
    by_cases hc : cfg.creds.isSome <;>
      simp [hc, hsWrite_written, hw, SOCKS_VERSION, AuthMethod.NoAuth,
            AuthMethod.UsernamePassword]
  rw [connectAndRequest]
  split
  · rename_i e heq
    refine ⟨by simp [closedDelta, hsWrite_closed, readN_error_not_checked _ _ _ heq], ?_⟩
    exact ⟨[], by rw [hnb _ rfl, List.append_nil]⟩
  · rename_i pr reply s1 heq
    dsimp only
    split
    · constructor
      · simp only [closedDelta, hsClose_eq, hsWrite_closed]
        split <;> simp [SocksError.isChecked]
      · simp only [hsClose_eq]
        exact ⟨[], by rw [hnb _ rfl, List.append_nil]⟩
    · split
      · split
        · rename_i e2 st2 heq2
          obtain ⟨hc2, w2, hw2⟩ := handshakeAuth_state ct _ _ _ _ heq2
          constructor
          · simpa [hsWrite_closed] using hc2
          · exact ⟨w2, by rw [hw2, hnb _ rfl]⟩
        · rename_i u st2 heq2
          obtain ⟨hc2, w2, hw2⟩ := handshakeAuth_state ct _ _ _ _ heq2
          cases hr : handshakeRequest ct cmd hostname port st2 with
          | mk r3 st3 =>
            obtain ⟨hc3, w3, hw3⟩ := handshakeRequest_state ct _ _ _ _ _ _ hr
            constructor
            · rw [hc3, hc2]
              simp [closedDelta, hsWrite_closed]
            · refine ⟨w2 ++ w3, ?_⟩
              rw [hw3, hw2, hnb _ rfl]
              simp
      · cases hr : handshakeRequest ct cmd hostname port _ with
        | mk r3 st3 =>
          obtain ⟨hc3, w3, hw3⟩ := handshakeRequest_state ct _ _ _ _ _ _ hr
          constructor
          · rw [hc3]
            simp [closedDelta, hsWrite_closed]
          · refine ⟨w3, ?_⟩
            rw [hw3, hnb _ rfl]



/-! ## C3: close-on-failure behaviour of the handshake -/

/-- C3 (amended): the transport connection is closed — exactly one close
attempt, made before the error is returned — exactly when the error comes
from the handshake's own reply-validation checks (version mismatch, no
acceptable method, failed authentication, denied request); errors thrown by
the byte reader (unexpected end of stream) or by bound-address decoding
(unexpected address type) propagate WITHOUT the connection being closed,
and a successful handshake performs no close.  Whether `conn.close()`
itself throws never changes the outcome: the `catch` swallows it. -/
theorem connectAndRequest_close_spec (ct : Bool) (cfg : ClientConfig) (cmd : Nat)
    (hostname : String) (port : Nat) (s : ByteStream) :
    ((connectAndRequest ct cfg cmd hostname port s).2.closed =
      match (connectAndRequest ct cfg cmd hostname port s).1 with
      | .error e => if e.isChecked then 1 else 0
      | .ok _ => 0) ∧
    connectAndRequest true cfg cmd hostname port s =
      connectAndRequest false cfg cmd hostname port s := by
  refine ⟨?_, connectAndRequest_ct cfg cmd hostname port s⟩
  have h := (connectAndRequest_state ct cfg cmd hostname port s).1
  cases hr : (connectAndRequest ct cfg cmd hostname port s).1 with
  | error e =>
    rw [hr] at h
    simpa [closedDelta] using h
  | ok d =>
    rw [hr] at h
    simpa [closedDelta] using h

/-- C3 counterexample: end-of-stream during method negotiation (1 of the 2
expected reply bytes delivered, then EOF) makes the handshake raise the
unexpected-end-of-stream error with NO close attempt — the claim that every
handshake error closes the transport connection first is false on the code
(there is no try/finally around `readN` or `deserializeAddress`). -/
theorem connectAndRequest_eof_leaves_open :
    (connectAndRequest false ⟨"proxy", none, none⟩ Command.Connect "example.com" 80
        [some [5], none]).1 = .error (.unexpectedEof 1) ∧
    (connectAndRequest false ⟨"proxy", none, none⟩ Command.Connect "example.com" 80
        [some [5], none]).2.closed = 0 := by
  exact ⟨by decide, by decide⟩

/-! ## C7: method negotiation -/

/-- C7: the negotiation write always starts `[5, n, NoAuth, ...]` —
`[5, 1, 0]` without credentials and `[5, 2, 0, 2]` (UsernamePassword
appended) with them — and a proxy reply `[5, 0xFF]` makes `connect` fail
with the no-acceptable-authentication-methods error regardless of the
configured credentials. -/
theorem negotiation_methods_and_rejection (ct : Bool) (cfg : ClientConfig) (opts : ConnectOptions) (s rest : ByteStream) :
    (∃ w, (Client.connect ct cfg opts s).2.written =
        (if cfg.creds.isSome then [5, 2, 0, 2] else [5, 1, 0]) ++ w) ∧
    (Client.connect ct cfg opts (some [5, 255] :: rest)).1 =
      .error .noAcceptableAuthMethods := by
  constructor
  · exact (connectAndRequest_state ct cfg Command.Connect (opts.hostname.getD "127.0.0.1")
      opts.port s).2
  · simp only [Client.connect, connectAndRequest, hsWrite_stream]
    rw [readN_chunk_exact _ _ (by decide) (by decide)]
    simp [SOCKS_VERSION, AuthMethod.NoneAcceptable, hsClose_eq, Except.map]

/-! ## C10: the default destination hostname -/

/-- C10: when `opts.hostname` is omitted, `connect` behaves exactly as if
`"127.0.0.1"` had been passed; on a successful handshake the returned
connection's remote-address hostname is `"127.0.0.1"` and the request sent
to the proxy encodes `serializeAddress "127.0.0.1" port`. -/
theorem connect_default_hostname (ct : Bool) (cfg : ClientConfig) (p : Nat) (s : ByteStream) :
    Client.connect ct cfg ⟨none, p⟩ s = Client.connect ct cfg ⟨some "127.0.0.1", p⟩ s ∧
    (Client.connect ct ⟨"proxy", none, none⟩ ⟨none, 8080⟩ okScript10).1 =
      .ok ⟨("127.0.0.1", 80), ("127.0.0.1", 8080)⟩ ∧
    (Client.connect ct ⟨"proxy", none, none⟩ ⟨none, 8080⟩ okScript10).2.written =
      [5, 1, 0] ++ ([5, 1, 0] ++ serializeAddress "127.0.0.1" 8080) := by
  refine ⟨rfl, ?_, ?_⟩
  · cases ct <;> decide
  · cases ct <;> decide

end Socks5
